import Mathlib

/-!
# Verification of the target health-check engine (`src/backend/server.js`)

This file gives a shallow embedding of the health-check core of the intranet
dashboard backend: the URL normalizer (`shouldUseOrigin` / `buildCheckUrl`),
the latency `median`, the single HTTP probe (`oneTry`), the probe aggregator
(`fetchHealthUrl`), the TCP fallback, the health cache and the orchestrator
(`checkTargets`).

Modelling conventions:
  * JavaScript numbers that the code only ever uses as integers (timestamps,
    milliseconds, ports, HTTP statuses) are `Nat` / `Int`; latencies are fed
    to `median`, which can produce half-integers, so median arithmetic is
    over `ℚ`.
  * JavaScript objects used as string-keyed dictionaries (`statuses`,
    `details`) and the `Map` used as the health cache are association lists
    with insertion-order-preserving overwrite (`objSet` / `mapGet`), which is
    exactly the observable behaviour of plain JS objects and `Map`.
  * The network is an oracle: an `Env` supplies, per URL and attempt index,
    the outcome of one `fetch` and the outcome of one TCP connect.  Elapsed
    times are oracle-chosen naturals (the code computes them as differences
    of `Date.now()` under a monotone clock).
  * `new URL` is a platform builtin; it is embedded as `parseURL`, a
    WHATWG-style parser for the cases the engine exercises: scheme
    recognition, authority splitting with userinfo/port handling for the
    special schemes (`http`, `https`, `ws`, `wss`, `ftp`), path/query/fragment
    splitting, lowercasing of scheme and host, default-port elision,
    percent-encoding of the path characters the standard encodes, and the
    opaque-path branch (whose `origin` getter serialises to the string
    `"null"`) for all other schemes.  Simplifications that no claim touches:
    no IPv6 hosts (a `[` in the authority is rejected), no percent-decoding
    in `searchParams`, no dot-segment normalisation, non-ASCII path
    characters pass through unencoded.
-/

set_option maxRecDepth 4000

/-! ## String-keyed dictionaries (JS objects and `Map`) -/

/-- `m[k]` lookup: first binding wins (association lists never hold
duplicate keys here, since insertion goes through `objSet`). -/
def mapGet {α : Type} (m : List (String × α)) (k : String) : Option α :=
  match m with
  | [] => none
  | (k', v) :: t => if k' = k then some v else mapGet t k

/-- `m[k] = v` assignment on a JS object / `Map.set`: overwrite in place if
the key exists, else append (insertion order preserved). -/
def objSet {α : Type} (m : List (String × α)) (k : String) (v : α) : List (String × α) :=
  match m with
  | [] => [(k, v)]
  | (k', v') :: t => if k' = k then (k', v) :: t else (k', v') :: objSet t k v

/-! ## The WHATWG URL model used by `new URL` in `server.js` -/

/-- The components of a parsed URL that the engine reads: `origin`
(via scheme/host/port), `pathname` and the query string (`searchParams`). -/
structure URLRec where
  scheme : String
  host : String
  port : Option Nat
  pathname : String
  query : Option String
deriving DecidableEq, Repr

/-- The special schemes whose URLs carry an authority and a non-opaque
origin (`file:` is special for parsing but its origin is opaque, so it is
handled with the opaque branch here; no claim involves `file:` URLs). -/
def specialList : List String := ["http", "https", "ws", "wss", "ftp"]

/-- Default ports of the special schemes (elided from `url.port`). -/
def defaultPort (scheme : String) : Option Nat :=
  if scheme = "http" then some 80
  else if scheme = "https" then some 443
  else if scheme = "ws" then some 80
  else if scheme = "wss" then some 443
  else if scheme = "ftp" then some 21
  else none

/-- Characters allowed after the first one in a URL scheme. -/
def schemeChar (c : Char) : Bool :=
  c.isAlphanum || c = '+' || c = '-' || c = '.'

/-- Whitespace removed from the ends of the input by the URL parser. -/
def isWsChar (c : Char) : Bool :=
  c = ' ' || c = '\t' || c = '\n' || c = '\r'

/-- Strip leading and trailing whitespace (the WHATWG parser strips leading
and trailing C0-control-or-space before parsing). -/
def trimChars (l : List Char) : List Char :=
  ((l.dropWhile isWsChar).reverse.dropWhile isWsChar).reverse

/-- `String.prototype.trim()` (structural model over the character list). -/
def jsTrim (s : String) : String := String.mk (trimChars s.data)

/-- `String.prototype.toLowerCase()` (basic-latin lowering, as the engine
only compares against ASCII patterns). -/
def strLower (s : String) : String := String.mk (s.data.map Char.toLower)

/-- Split a character list at every occurrence of a separator
(`String.prototype.split(sep)` over characters). -/
def splitOnChar (sep : Char) : List Char → List (List Char)
  | [] => [[]]
  | c :: t =>
      if c = sep then [] :: splitOnChar sep t
      else
        match splitOnChar sep t with
        | [] => [[c]]
        | h :: r => (c :: h) :: r

/-- Consume scheme characters until the mandatory `:`; fails if a character
that cannot appear in a scheme shows up first, or the input ends. -/
def takeScheme (acc : List Char) : List Char → Option (List Char × List Char)
  | [] => none
  | c :: cs =>
      if c = ':' then some (acc.reverse, cs)
      else if schemeChar c then takeScheme (c :: acc) cs
      else none

/-- Split a character list at the first occurrence of a stop character:
returns the prefix before it and the remainder starting with the stop. -/
def breakAtSet (stops : List Char) : List Char → List Char × List Char
  | [] => ([], [])
  | c :: cs =>
      if c ∈ stops then ([], c :: cs)
      else
        let p := breakAtSet stops cs
        (c :: p.1, p.2)

/-- Host characters the parser accepts (controls, space and the WHATWG
forbidden host code points are rejected). -/
def hostOk (c : Char) : Bool :=
  32 < c.toNat && c.toNat ≠ 127 &&
    !(c ∈ ['#', '/', '\\', '?', '@', ':', '<', '>', '[', ']', '^', '|'])

/-- Drop the userinfo: keep only what follows the last `@` of the
authority (WHATWG takes the host from after the last `@`). -/
def hostPort (auth : List Char) : List Char :=
  (auth.reverse.takeWhile (fun c => c ≠ '@')).reverse

/-- A decimal digit's value, if the character is one. -/
def charToDigit (c : Char) : Option Nat :=
  if 48 ≤ c.toNat ∧ c.toNat ≤ 57 then some (c.toNat - 48) else none

/-- One step of reading a decimal number left to right. -/
def digitStep (acc : Option Nat) (c : Char) : Option Nat :=
  match acc, charToDigit c with
  | some a, some d => some (a * 10 + d)
  | _, _ => none

/-- Value of a non-empty all-digit character list (none on a non-digit). -/
def digitsVal (l : List Char) : Option Nat :=
  l.foldl digitStep (some 0)

/-- Decimal digit characters of a natural number, most significant first. -/
def natDigits (n : Nat) : List Char :=
  if h : n < 10 then [Char.ofNat (48 + n)]
  else natDigits (n / 10) ++ [Char.ofNat (48 + n % 10)]
decreasing_by exact Nat.div_lt_self (by omega) (by omega)

/-- The serialised port part of an origin: empty, or `:` and the decimal
digits. -/
def portSL : Option Nat → List Char
  | none => []
  | some n => ':' :: natDigits n

/-- Port part of the authority: nothing, or `:` followed by digits.  An
empty port is allowed; a non-digit, an overlarge value, or the scheme's
default port yield `none`-ports or failure exactly as WHATWG does. -/
def parsePort (scheme : String) (pr : List Char) : Option (Option Nat) :=
  match pr with
  | [] => some none
  | ':' :: ds =>
      if ds = [] then some none
      else
        match digitsVal ds with
        | none => none
        | some n =>
            if 65535 < n then none
            else if defaultPort scheme = some n then some none
            else some (some n)
  | _ => none

/-- Path characters the serialiser percent-encodes (C0 controls, space,
DEL, `"`, `<`, `>` and the backquote). -/
def needsEnc (c : Char) : Bool :=
  c.toNat < 33 || c.toNat = 127 || c ∈ ['"', '<', '>', Char.ofNat 96]

/-- Uppercase-hex digit for a value below 16. -/
def hexDigit (m : Nat) : Char :=
  if m < 10 then Char.ofNat (48 + m) else Char.ofNat (55 + m)

/-- Percent-encode one path character if the standard requires it. -/
def encodePathChar (c : Char) : List Char :=
  if needsEnc c then ['%', hexDigit (c.toNat / 16), hexDigit (c.toNat % 16)]
  else [c]

/-- Path processing of the special-URL path: backslashes count as slashes,
and the path percent-encode set is applied. -/
def processPath (l : List Char) : List Char :=
  ((l.map fun c => if c = '\\' then '/' else c).map encodePathChar).flatten

/-- Split what follows the authority into the serialised pathname and the
raw query (fragment discarded).  An absent path serialises as `/`. -/
def splitPathQuery (rest : List Char) : String × Option String :=
  let p := breakAtSet ['?', '#'] rest
  let path := if p.1 = [] then "/" else String.mk (processPath p.1)
  let query :=
    match p.2 with
    | '?' :: t => some (String.mk (breakAtSet ['#'] t).1)
    | _ => none
  (path, query)

/-- Parse the remainder (after `scheme:`) of a special-scheme URL:
skip the slashes, split off the authority, drop userinfo, validate host and
port, lowercase the host, and split path from query. -/
def parseSpecialRest (scheme : String) (r : List Char) : Option URLRec :=
  let r := r.dropWhile fun c => c = '/' || c = '\\'
  let ar := breakAtSet ['/', '\\', '?', '#'] r
  let hp := hostPort ar.1
  let hcolon := breakAtSet [':'] hp
  let h := hcolon.1
  if h = [] then none
  else if h.any (fun c => !hostOk c) then none
  else
    match parsePort scheme hcolon.2 with
    | none => none
    | some port =>
        let pq := splitPathQuery ar.2
        some
          { scheme := scheme
            host := String.mk (h.map Char.toLower)
            port := port
            pathname := pq.1
            query := pq.2 }

/-- Parse the remainder of a non-special-scheme URL: an opaque path up to
the query or fragment, taken verbatim; such URLs have host `""` and their
`origin` getter serialises to the string `"null"`. -/
def parseNonSpecialRest (scheme : String) (r : List Char) : Option URLRec :=
  let p := breakAtSet ['?', '#'] r
  let query :=
    match p.2 with
    | '?' :: t => some (String.mk (breakAtSet ['#'] t).1)
    | _ => none
  some
    { scheme := scheme
      host := ""
      port := none
      pathname := String.mk p.1
      query := query }

/-- `new URL(s)`: the WHATWG URL parser as used by `server.js` (see the
module docstring for the modelled fragment).  Returns `none` where the
builtin throws. -/
def parseURL (s : String) : Option URLRec :=
  match trimChars s.data with
  | [] => none
  | c :: cs =>
      if c.isAlpha then
        match takeScheme [c] cs with
        | none => none
        | some sr =>
            let scheme := String.mk (sr.1.map Char.toLower)
            if scheme ∈ specialList then parseSpecialRest scheme sr.2
            else parseNonSpecialRest scheme sr.2
      else none

/-- The `url.origin` getter: `scheme://host[:port]` for the special
schemes, the literal string `"null"` for opaque origins. -/
def origin (u : URLRec) : String :=
  if u.scheme ∈ specialList then
    u.scheme ++ "://" ++ u.host ++ String.mk (portSL u.port)
  else "null"

/-- `pat` occurs as a substring of `s` (`String.prototype.includes`). -/
def strContains (s pat : String) : Bool :=
  decide (pat.data <:+: s.data)

/-- `url.searchParams.has(key)`: some `&`-separated piece of the query has
`key` as the part before its first `=` (percent-decoding not modelled; the
probed keys are plain ASCII). -/
def searchParamsHas (query : Option String) (key : String) : Bool :=
  match query with
  | none => false
  | some q =>
      (splitOnChar '&' q.data).any fun piece => (breakAtSet ['='] piece).1 = key.data

/-! ## The URL normalizer (`shouldUseOrigin` / `buildCheckUrl`) -/

/-- `shouldUseOrigin(parsed)` from `server.js`: the (lowercased) path holds
an OpenID-Connect authorization segment, or the query carries one of the
login parameters `state`, `nonce`, `code`. -/
def shouldUseOrigin (parsed : URLRec) : Bool :=
  let path := strLower parsed.pathname
  let hasOidcPath :=
    strContains path "/openid-connect/auth" ||
      strContains path "/protocol/openid-connect/auth"
  let hasLoginParams :=
    ["state", "nonce", "code"].any fun key => searchParamsHas parsed.query key
  hasOidcPath || hasLoginParams

/-- `buildCheckUrl(rawUrl)` from `server.js`: `null` for a falsy or
unparsable input; the bare `origin + "/"` for login/OIDC-looking URLs;
otherwise `origin + pathname` (query and fragment stripped). -/
def buildCheckUrl (rawUrl : Option String) : Option String :=
  match rawUrl with
  | none => none
  | some s =>
      if s = "" then none
      else
        match parseURL s with
        | none => none
        | some parsed =>
            if shouldUseOrigin parsed then some (origin parsed ++ "/")
            else some (origin parsed ++ parsed.pathname)

/-! ## `median` over the successful latencies -/

/-- `median(values)` from `server.js`: `null` on an empty list, else sort
ascending, take the middle element (odd count) or the mean of the two
middle elements (even count).  Latency arithmetic is over `ℚ` because the
even case divides by two. -/
def median (values : List ℚ) : Option ℚ :=
  if values.length = 0 then none
  else
    let sorted := values.insertionSort (· ≤ ·)
    let mid := values.length / 2
    if values.length % 2 = 1 then some (sorted.getD mid 0)
    else some ((sorted.getD (mid - 1) 0 + sorted.getD mid 0) / 2)

/-! ## Probes, verdicts, the cache and the orchestrator -/

/-- One probe attempt's observable outcome: reachability and elapsed ms. -/
structure Attempt where
  ok : Bool
  ms : Nat
deriving DecidableEq, Repr

/-- What one `fetch` call can do: resolve with an HTTP status after some
elapsed time, or reject (network error, DNS failure, abort on timeout)
after some elapsed time. -/
inductive FetchOutcome where
  | success (status : Nat) (elapsed : Nat)
  | failure (elapsed : Nat)
deriving DecidableEq, Repr

/-- The elapsed time of a fetch outcome. -/
def FetchOutcome.elapsed : FetchOutcome → Nat
  | .success _ ms => ms
  | .failure ms => ms

/-- `oneTry(url)` from `server.js`, as a function of the fetch outcome: a
response counts as reachable iff its status is `< 500`; every rejection is
caught and reported as `ok: false`; the elapsed time is reported either
way, and no exception escapes (the function is total). -/
def oneTry (o : FetchOutcome) : Attempt :=
  match o with
  | .success status ms => { ok := decide (status < 500), ms := ms }
  | .failure ms => { ok := false, ms := ms }

/-- The aggregator's internal tri-state verdict. -/
inductive HState where
  | up
  | unstable
  | down
deriving DecidableEq, Repr

/-- The verdict record `fetchHealthUrl` returns (optionally enriched by the
TCP fallback fields in `checkTargets`). -/
structure Verdict where
  status : HState
  attempts : Nat
  success : Nat
  medianMs : Option ℚ
  tcpOk : Option Bool
  tcpMs : Option Nat
deriving DecidableEq, Repr

/-- The three sequential `oneTry` results of one evaluation, supplied by
the probe oracle for attempt indices 0, 1, 2. -/
def fetchResults (probe : Nat → Attempt) : List Attempt :=
  [probe 0, probe 1, probe 2]

/-- `fetchHealthUrl(url)` from `server.js`: run 3 attempts, count
successes, take the median of the successful latencies, and classify:
3/3 with median at or above the slow threshold is `unstable`, 3/3 below is
`up`, 1-2/3 is `unstable`, 0/3 is `down`. -/
def fetchHealthUrl (probe : Nat → Attempt) (slowMs : ℚ) : Verdict :=
  let results := fetchResults probe
  let success := (results.filter fun a => a.ok).length
  let latencies := (results.filter fun a => a.ok).map fun a => (a.ms : ℚ)
  let medianMs := median latencies
  let status :=
    if success = 3 then
      match medianMs with
      | some m => if slowMs ≤ m then HState.unstable else HState.up
      | none => HState.up
    else if 0 < success then HState.unstable
    else HState.down
  { status := status, attempts := 3, success := success,
    medianMs := medianMs, tcpOk := none, tcpMs := none }

/-- A target as supplied to `checkTargets`: stable id, primary link and
optional dedicated check URL. -/
structure Target where
  id : String
  href : Option String
  checkUrl : Option String
deriving DecidableEq, Repr

/-- The primary probing URL: `item.checkUrl && String(item.checkUrl).trim()
? item.checkUrl : item.href` — `checkUrl` is used only when it is present,
non-empty and not whitespace-only; otherwise `href` (possibly absent). -/
def resolvePrimary (t : Target) : Option String :=
  match t.checkUrl with
  | some s => if s ≠ "" ∧ jsTrim s ≠ "" then some s else t.href
  | none => t.href

/-- The four externally visible states. -/
inductive Status where
  | online
  | offline
  | unstable
  | unknown
deriving DecidableEq, Repr

/-- A value stored in the returned `statuses` object: a state for a target
id, or (under the reserved `_details` key) the whole detail map. -/
inductive StatusVal where
  | state (s : Status)
  | detailsMap (d : List (String × Verdict))
deriving DecidableEq, Repr

/-- A health-cache entry: `{ status, ts, details }`. -/
structure CacheEntry where
  status : Status
  ts : Int
  details : Option Verdict
deriving DecidableEq, Repr

/-- The health cache: a `Map` from target id to its latest entry. -/
abbrev Cache := List (String × CacheEntry)

/-- The network oracle for one check cycle: per URL and attempt index the
outcome of one HTTP probe, and per URL the outcome of one TCP connect. -/
structure Env where
  probe : String → Nat → Attempt
  tcp : String → Attempt

/-- `HEALTH_CACHE_MS` from `server.js`. -/
def HEALTH_CACHE_MS : Int := 60000

/-- What processing one target yields: its status, its recorded detail (if
any), the updated cache, and how many HTTP attempts and TCP probes were
issued for it. -/
structure StepOut where
  status : Status
  detail : Option Verdict
  cache : Cache
  httpCalls : Nat
  tcpCalls : Nat
deriving DecidableEq, Repr

/-- The cache-miss path of `checkTargets` for one target: aggregate 3 HTTP
attempts; on zero successes run the TCP fallback, upgrading the verdict to
`unstable` on TCP success; map `up/down/unstable` to
`online/offline/unstable`; store the fresh cache entry. -/
def probeTarget (env : Env) (slowMs : ℚ) (now : Int) (cache : Cache)
    (t : Target) (url : String) : StepOut :=
  let r := fetchHealthUrl (env.probe url) slowMs
  let rt :=
    if r.success = 0 then
      let p := env.tcp url
      if p.ok then
        ({ r with status := HState.unstable, tcpOk := some true, tcpMs := some p.ms }, 1)
      else
        ({ r with tcpOk := some false, tcpMs := some p.ms }, 1)
    else (r, 0)
  let st :=
    if rt.1.status = HState.up then Status.online
    else if rt.1.status = HState.down then Status.offline
    else Status.unstable
  { status := st, detail := some rt.1,
    cache := objSet cache t.id { status := st, ts := now, details := some rt.1 },
    httpCalls := 3, tcpCalls := rt.2 }

/-- The loop body of `checkTargets` for one target: resolve the probing
URL; `unknown` (touching nothing) if it is absent, `"#"` or unparsable;
reuse a fresh cache entry; otherwise probe. -/
def stepTarget (env : Env) (slowMs : ℚ) (now : Int) (cache : Cache)
    (t : Target) : StepOut :=
  let primary := resolvePrimary t
  match buildCheckUrl primary with
  | none => { status := Status.unknown, detail := none, cache := cache, httpCalls := 0, tcpCalls := 0 }
  | some url =>
      if primary = some "#" then
        { status := Status.unknown, detail := none, cache := cache, httpCalls := 0, tcpCalls := 0 }
      else
        match mapGet cache t.id with
        | some cached =>
            if now - cached.ts < HEALTH_CACHE_MS then
              { status := cached.status, detail := cached.details, cache := cache,
                httpCalls := 0, tcpCalls := 0 }
            else probeTarget env slowMs now cache t url
        | none => probeTarget env slowMs now cache t url

/-- The output of one check cycle: the returned `statuses` object (with
the `_details` entry merged when the detail map is non-empty), the final
cache, and total network-attempt counts. -/
structure CheckOut where
  statuses : List (String × StatusVal)
  cache : Cache
  httpCalls : Nat
  tcpCalls : Nat
deriving DecidableEq, Repr

/-- The `for (const item of targets)` loop of `checkTargets`, with the
`statuses` / `details` accumulators and attempt counters made explicit. -/
def checkTargetsAux (env : Env) (slowMs : ℚ) (now : Int) :
    List Target → Cache → List (String × StatusVal) → List (String × Verdict) →
      Nat → Nat → CheckOut
  | [], cache, statuses, details, h, tc =>
      let statuses :=
        if details = [] then statuses
        else objSet statuses "_details" (StatusVal.detailsMap details)
      { statuses := statuses, cache := cache, httpCalls := h, tcpCalls := tc }
  | t :: rest, cache, statuses, details, h, tc =>
      let o := stepTarget env slowMs now cache t
      let statuses := objSet statuses t.id (StatusVal.state o.status)
      let details :=
        match o.detail with
        | some v => objSet details t.id v
        | none => details
      checkTargetsAux env slowMs now rest o.cache statuses details
        (h + o.httpCalls) (tc + o.tcpCalls)

/-- `checkTargets(targets)` from `server.js`, over a given starting cache,
cycle time `now` and network oracle. -/
def checkTargets (env : Env) (slowMs : ℚ) (now : Int) (targets : List Target)
    (cache : Cache) : CheckOut :=
  checkTargetsAux env slowMs now targets cache [] [] 0 0

/-- The shape of a pathname the parser can produce for a special-scheme
URL: non-empty, starts with `/`, and free of the query/fragment delimiters,
of backslashes and of characters the serialiser would have encoded. -/
def pathWF (p : String) : Prop :=
  p.data ≠ [] ∧ p.data.head? = some '/' ∧
    ∀ c ∈ p.data, needsEnc c = false ∧ c ≠ '?' ∧ c ≠ '#' ∧ c ≠ '\\'

/-- The invariant a special-scheme `parseURL` result satisfies; it is what
makes the serialised `origin ++ pathname` re-parse to the same components. -/
def WF (u : URLRec) : Prop :=
  u.scheme ∈ specialList ∧
  u.host.data ≠ [] ∧
  (∀ c ∈ u.host.data, hostOk c = true ∧ Char.toLower c = c) ∧
  (∀ n, u.port = some n → n ≤ 65535 ∧ defaultPort u.scheme ≠ some n) ∧
  pathWF u.pathname


/-! ## Character and list helper lemmas -/

/-- Characters with different code points differ. -/
theorem char_ne_of_toNat {c d : Char} (h : c.toNat ≠ d.toNat) : c ≠ d :=
  fun e => h (congrArg Char.toNat e)

theorem char_toNat_ofNat {n : Nat} (h : n < 55296) : (Char.ofNat n).toNat = n := by
  unfold Char.ofNat
  rw [dif_pos (Or.inl h)]
  simp [Char.ofNatAux, Char.toNat, UInt32.toNat, BitVec.toNat_ofNatLt]

theorem char_toLower_toNat (c : Char) :
    c.toLower.toNat = if 65 ≤ c.toNat ∧ c.toNat ≤ 90 then c.toNat + 32 else c.toNat := by
  unfold Char.toLower
  by_cases h : c.toNat ≥ 65 ∧ c.toNat ≤ 90
  · rw [if_pos h, if_pos h]
    exact char_toNat_ofNat (by omega)
  · rw [if_neg h, if_neg h]

theorem char_toLower_toLower (c : Char) : c.toLower.toLower = c.toLower := by
  unfold Char.toLower
  by_cases h : c.toNat ≥ 65 ∧ c.toNat ≤ 90
  · rw [if_pos h]
    have hv : (Char.ofNat (c.toNat + 32)).toNat = c.toNat + 32 :=
      char_toNat_ofNat (by omega)
    rw [if_neg (by omega)]
  · rw [if_neg h, if_neg h]

theorem dropWhile_all_false {p : Char → Bool} :
    ∀ {l : List Char}, (∀ c ∈ l, p c = false) → l.dropWhile p = l
  | [], _ => rfl
  | c :: t, h => by
      simp only [List.dropWhile_cons, h c (List.mem_cons_self c t)]
      simp

theorem takeWhile_all_true {p : Char → Bool} :
    ∀ {l : List Char}, (∀ c ∈ l, p c = true) → l.takeWhile p = l
  | [], _ => rfl
  | c :: t, h => by
      simp only [List.takeWhile_cons, h c (List.mem_cons_self c t)]
      simp only [if_true, List.cons.injEq, true_and]
      exact takeWhile_all_true fun d hd => h d (List.mem_cons_of_mem _ hd)

theorem trimChars_eq_self {l : List Char} (h : ∀ c ∈ l, isWsChar c = false) :
    trimChars l = l := by
  unfold trimChars
  rw [dropWhile_all_false h]
  rw [dropWhile_all_false (by intro c hc; exact h c (List.mem_reverse.mp hc))]
  exact List.reverse_reverse l

theorem map_eq_self {f : Char → Char} :
    ∀ {l : List Char}, (∀ c ∈ l, f c = c) → l.map f = l
  | [], _ => rfl
  | c :: t, h => by
      simp only [List.map_cons, h c (List.mem_cons_self c t), List.cons.injEq, true_and]
      exact map_eq_self fun d hd => h d (List.mem_cons_of_mem _ hd)

theorem takeScheme_append {sch rest : List Char}
    (h : ∀ c ∈ sch, schemeChar c = true ∧ c ≠ ':') :
    ∀ acc, takeScheme acc (sch ++ ':' :: rest) = some (acc.reverse ++ sch, rest) := by
  induction sch with
  | nil => intro acc; simp [takeScheme]
  | cons c t ih =>
      intro acc
      obtain ⟨hs, hne⟩ := h c (List.mem_cons_self c t)
      simp only [List.cons_append, takeScheme, if_neg hne, hs, if_true, List.append_eq]
      rw [ih (fun d hd => h d (List.mem_cons_of_mem _ hd))]
      simp

theorem breakAtSet_stop {stops : List Char} {d : Char} (t : List Char) (h : d ∈ stops) :
    breakAtSet stops (d :: t) = ([], d :: t) := by
  simp [breakAtSet, h]

theorem breakAtSet_append {stops a b} (h : ∀ c ∈ a, c ∉ stops) :
    breakAtSet stops (a ++ b) =
      (a ++ (breakAtSet stops b).1, (breakAtSet stops b).2) := by
  induction a with
  | nil => simp
  | cons c t ih =>
      have hc := h c (List.mem_cons_self c t)
      simp only [List.cons_append, breakAtSet, if_neg hc, List.append_eq]
      rw [ih (fun d hd => h d (List.mem_cons_of_mem _ hd))]

theorem breakAtSet_all {stops l} (h : ∀ c ∈ l, c ∉ stops) :
    breakAtSet stops l = (l, []) := by
  have := breakAtSet_append (b := []) h
  simpa [breakAtSet] using this

theorem hostPort_no_at {l : List Char} (h : '@' ∉ l) : hostPort l = l := by
  unfold hostPort
  rw [takeWhile_all_true, List.reverse_reverse]
  intro c hc
  have : c ∈ l := List.mem_reverse.mp hc
  simp only [decide_eq_true_eq]
  intro e; exact h (e ▸ this)

/-- Decomposition of `breakAtSet`: the two pieces reassemble the input, the
first piece holds no stop character, and the second is empty or starts with
a stop character. -/
theorem breakAtSet_spec (stops : List Char) :
    ∀ l : List Char,
      (breakAtSet stops l).1 ++ (breakAtSet stops l).2 = l ∧
        (∀ c ∈ (breakAtSet stops l).1, c ∉ stops) ∧
        ((breakAtSet stops l).2 = [] ∨
          ∃ d t, (breakAtSet stops l).2 = d :: t ∧ d ∈ stops)
  | [] => by simp [breakAtSet]
  | c :: cs => by
      by_cases hc : c ∈ stops
      · rw [breakAtSet_stop cs hc]
        exact ⟨rfl, by simp, Or.inr ⟨c, cs, rfl, hc⟩⟩
      · obtain ⟨h1, h2, h3⟩ := breakAtSet_spec stops cs
        simp only [breakAtSet, if_neg hc]
        refine ⟨by simpa using h1, ?_, h3⟩
        intro d hd
        rcases List.mem_cons.mp hd with rfl | hd
        · exact hc
        · exact h2 d hd

/-! ## Decimal digits -/

theorem charToDigit_digit {n : Nat} (h : n < 10) :
    charToDigit (Char.ofNat (48 + n)) = some n := by
  have hv : (Char.ofNat (48 + n)).toNat = 48 + n := char_toNat_ofNat (by omega)
  unfold charToDigit
  rw [hv, if_pos (by omega)]
  congr 1
  omega

theorem natDigits_digit_bounds : ∀ n, ∀ c ∈ natDigits n, 48 ≤ c.toNat ∧ c.toNat ≤ 57
  | n => by
      unfold natDigits
      by_cases h : n < 10
      · rw [dif_pos h]
        intro c hc
        simp only [List.mem_singleton] at hc
        subst hc
        rw [char_toNat_ofNat (by omega)]
        omega
      · rw [dif_neg h]
        intro c hc
        rcases List.mem_append.mp hc with hc | hc
        · have := Nat.div_lt_self (by omega : 0 < n) (by omega : 1 < 10)
          exact natDigits_digit_bounds (n / 10) c hc
        · simp only [List.mem_singleton] at hc
          subst hc
          rw [char_toNat_ofNat (by omega)]
          omega

theorem natDigits_ne_nil (n : Nat) : natDigits n ≠ [] := by
  unfold natDigits
  by_cases h : n < 10
  · rw [dif_pos h]; simp
  · rw [dif_neg h]; simp

theorem foldl_digitStep_natDigits :
    ∀ n a, (natDigits n).foldl digitStep (some a) =
      some (a * 10 ^ (natDigits n).length + n)
  | n, a => by
      unfold natDigits
      by_cases h : n < 10
      · rw [dif_pos h]
        simp only [List.foldl_cons, List.foldl_nil, digitStep, charToDigit_digit h,
          List.length_singleton]
        norm_num
      · rw [dif_neg h]
        have hlt := Nat.div_lt_self (by omega : 0 < n) (by omega : 1 < 10)
        rw [List.foldl_append]
        rw [foldl_digitStep_natDigits (n / 10) a]
        simp only [List.foldl_cons, List.foldl_nil, digitStep,
          charToDigit_digit (Nat.mod_lt n (by omega) : n % 10 < 10)]
        rw [List.length_append, List.length_singleton]
        congr 1
        have hmod := Nat.div_add_mod n 10
        ring_nf
        omega

theorem digitsVal_natDigits (n : Nat) : digitsVal (natDigits n) = some n := by
  unfold digitsVal
  rw [foldl_digitStep_natDigits n 0]
  simp

/-! ## Character-class bridges -/

theorem char_eq_of_toNat_eq {c d : Char} (h : c.toNat = d.toNat) : c = d :=
  Char.ext (UInt32.toNat.inj h)

theorem char_toNat_ne_of_ne {c d : Char} (h : c ≠ d) : c.toNat ≠ d.toNat :=
  fun e => h (char_eq_of_toNat_eq e)

theorem hostOk_spec {c : Char} (h : hostOk c = true) :
    32 < c.toNat ∧ c.toNat ≠ 127 ∧ c.toNat ≠ 35 ∧ c.toNat ≠ 47 ∧ c.toNat ≠ 92 ∧
      c.toNat ≠ 63 ∧ c.toNat ≠ 64 ∧ c.toNat ≠ 58 ∧ c.toNat ≠ 60 ∧ c.toNat ≠ 62 ∧
      c.toNat ≠ 91 ∧ c.toNat ≠ 93 ∧ c.toNat ≠ 94 ∧ c.toNat ≠ 124 := by
  simp only [hostOk, Bool.and_eq_true, Bool.not_eq_true', decide_eq_false_iff_not,
    List.mem_cons, List.not_mem_nil, or_false, decide_eq_true_eq, ne_eq] at h
  obtain ⟨⟨h1, h2⟩, h3⟩ := h
  push_neg at h3
  obtain ⟨e1, e2, e3, e4, e5, e6, e7, e8, e9, e10, e11, e12⟩ := h3
  exact ⟨h1, by simpa using h2, char_toNat_ne_of_ne e1, char_toNat_ne_of_ne e2,
    char_toNat_ne_of_ne e3, char_toNat_ne_of_ne e4, char_toNat_ne_of_ne e5,
    char_toNat_ne_of_ne e6, char_toNat_ne_of_ne e7, char_toNat_ne_of_ne e8,
    char_toNat_ne_of_ne e9, char_toNat_ne_of_ne e10, char_toNat_ne_of_ne e11,
    char_toNat_ne_of_ne e12⟩

theorem hostOk_iff {c : Char} :
    hostOk c = true ↔
      (32 < c.toNat ∧ c.toNat ≠ 127 ∧ c.toNat ≠ 35 ∧ c.toNat ≠ 47 ∧ c.toNat ≠ 92 ∧
        c.toNat ≠ 63 ∧ c.toNat ≠ 64 ∧ c.toNat ≠ 58 ∧ c.toNat ≠ 60 ∧ c.toNat ≠ 62 ∧
        c.toNat ≠ 91 ∧ c.toNat ≠ 93 ∧ c.toNat ≠ 94 ∧ c.toNat ≠ 124) := by
  constructor
  · exact hostOk_spec
  · intro ⟨h1, h2, h3, h4, h5, h6, h7, h8, h9, h10, h11, h12, h13, h14⟩
    simp only [hostOk, Bool.and_eq_true, Bool.not_eq_true', decide_eq_false_iff_not,
      List.mem_cons, List.not_mem_nil, or_false, decide_eq_true_eq, ne_eq]
    refine ⟨⟨h1, by simpa using h2⟩, ?_⟩
    push_neg
    refine ⟨?_, ?_, ?_, ?_, ?_, ?_, ?_, ?_, ?_, ?_, ?_, ?_⟩ <;>
      intro e <;> subst e <;> simp_all

theorem hostOk_toLower {c : Char} (h : hostOk c = true) : hostOk c.toLower = true := by
  have hs := hostOk_spec h
  rw [hostOk_iff]
  rw [char_toLower_toNat c]
  by_cases hc : 65 ≤ c.toNat ∧ c.toNat ≤ 90
  · rw [if_pos hc]; omega
  · rw [if_neg hc]; omega

theorem needsEnc_iff {c : Char} :
    needsEnc c = true ↔
      (c.toNat < 33 ∨ c.toNat = 127 ∨ c.toNat = 34 ∨ c.toNat = 60 ∨ c.toNat = 62 ∨
        c.toNat = 96) := by
  simp only [needsEnc, Bool.or_eq_true, decide_eq_true_eq, List.mem_cons,
    List.not_mem_nil, or_false]
  constructor
  · rintro ((h | h) | rfl | rfl | rfl | rfl)
    · exact Or.inl h
    · exact Or.inr (Or.inl h)
    all_goals decide
  · rintro (h | h | h | h | h | h)
    · exact Or.inl (Or.inl h)
    · exact Or.inl (Or.inr h)
    · exact Or.inr (Or.inl (char_eq_of_toNat_eq (by rw [h]; decide)))
    · exact Or.inr (Or.inr (Or.inl (char_eq_of_toNat_eq (by rw [h]; decide))))
    · exact Or.inr (Or.inr (Or.inr (Or.inl (char_eq_of_toNat_eq (by rw [h]; decide)))))
    · exact Or.inr (Or.inr (Or.inr (Or.inr (char_eq_of_toNat_eq (by rw [h]; decide)))))

theorem needsEnc_false_ge {c : Char} (h : needsEnc c = false) : 33 ≤ c.toNat := by
  by_contra hc
  have : needsEnc c = true := needsEnc_iff.mpr (Or.inl (by omega))
  simp [this] at h

theorem needsEnc_true_lt {c : Char} (h : needsEnc c = true) : c.toNat < 128 := by
  rcases needsEnc_iff.mp h with h | h | h | h | h | h <;> omega

theorem hexDigit_props {m : Nat} (h : m < 16) :
    needsEnc (hexDigit m) = false ∧ (hexDigit m).toNat ≠ 63 ∧ (hexDigit m).toNat ≠ 35 ∧
      (hexDigit m).toNat ≠ 92 := by
  interval_cases m <;> exact ⟨by decide, by decide, by decide, by decide⟩

/-! ## Path processing lemmas -/

theorem processPath_cons (c : Char) (t : List Char) :
    processPath (c :: t) =
      encodePathChar (if c = '\\' then '/' else c) ++ processPath t := by
  simp [processPath]

theorem encodePathChar_fixed {c : Char} (h : needsEnc c = false) :
    encodePathChar c = [c] := by
  simp [encodePathChar, h]

theorem processPath_fixed :
    ∀ {l : List Char}, (∀ c ∈ l, needsEnc c = false ∧ c ≠ '\\') → processPath l = l
  | [], _ => rfl
  | c :: t, h => by
      obtain ⟨he, hb⟩ := h c (List.mem_cons_self c t)
      rw [processPath_cons, if_neg hb, encodePathChar_fixed he,
        processPath_fixed fun d hd => h d (List.mem_cons_of_mem _ hd)]
      rfl

theorem encodePathChar_props {c : Char} (h : c ≠ '?' ∧ c ≠ '#' ∧ c ≠ '\\') :
    ∀ d ∈ encodePathChar c,
      needsEnc d = false ∧ d ≠ '?' ∧ d ≠ '#' ∧ d ≠ '\\' := by
  intro d hd
  unfold encodePathChar at hd
  by_cases he : needsEnc c = true
  · rw [if_pos he] at hd
    have hlt := needsEnc_true_lt he
    have hdiv : c.toNat / 16 < 16 := by omega
    have hmod : c.toNat % 16 < 16 := Nat.mod_lt _ (by omega)
    rcases List.mem_cons.mp hd with rfl | hd
    · exact ⟨by decide, by decide, by decide, by decide⟩
    rcases List.mem_cons.mp hd with rfl | hd
    · obtain ⟨h1, h2, h3, h4⟩ := hexDigit_props hdiv
      exact ⟨h1, char_ne_of_toNat (by simpa using h2),
        char_ne_of_toNat (by simpa using h3), char_ne_of_toNat (by simpa using h4)⟩
    rcases List.mem_cons.mp hd with rfl | hd
    · obtain ⟨h1, h2, h3, h4⟩ := hexDigit_props hmod
      exact ⟨h1, char_ne_of_toNat (by simpa using h2),
        char_ne_of_toNat (by simpa using h3), char_ne_of_toNat (by simpa using h4)⟩
    · simp at hd
  · rw [if_neg he] at hd
    simp only [List.mem_singleton] at hd
    subst hd
    exact ⟨by simpa using he, h.1, h.2.1, h.2.2⟩

theorem processPath_props :
    ∀ {l : List Char}, (∀ c ∈ l, c ≠ '?' ∧ c ≠ '#') →
      ∀ d ∈ processPath l, needsEnc d = false ∧ d ≠ '?' ∧ d ≠ '#' ∧ d ≠ '\\'
  | [], _ => by intro d hd; simp [processPath] at hd
  | c :: t, h => by
      intro d hd
      rw [processPath_cons] at hd
      rcases List.mem_append.mp hd with hd | hd
      · obtain ⟨h1, h2⟩ := h c (List.mem_cons_self c t)
        refine encodePathChar_props ?_ d hd
        by_cases hb : c = '\\'
        · rw [if_pos hb]
          exact ⟨by decide, by decide, by decide⟩
        · rw [if_neg hb]
          exact ⟨h1, h2, hb⟩
      · exact processPath_props (fun e he => h e (List.mem_cons_of_mem _ he)) d hd

theorem processPath_head {c : Char} (t : List Char) (hc : c = '/' ∨ c = '\\') :
    ∃ t', processPath (c :: t) = '/' :: t' := by
  rcases hc with rfl | rfl
  · rw [processPath_cons, if_neg (by decide), encodePathChar_fixed (by decide)]
    exact ⟨processPath t, rfl⟩
  · rw [processPath_cons, if_pos rfl, encodePathChar_fixed (by decide)]
    exact ⟨processPath t, rfl⟩

/-! ## Wellformedness of parsed URLs -/

theorem pathWF_slash : pathWF "/" := by
  refine ⟨by decide, by decide, ?_⟩
  intro c hc
  have : c = '/' := by simpa using hc
  subst this
  exact ⟨by decide, by decide, by decide, by decide⟩

theorem parsePort_WF {scheme : String} {pr : List Char} {port : Option Nat}
    (h : parsePort scheme pr = some port) :
    ∀ n, port = some n → n ≤ 65535 ∧ defaultPort scheme ≠ some n := by
  intro n hn
  subst hn
  unfold parsePort at h
  split at h
  · simp at h
  · split at h
    · simp at h
    · split at h
      · exact absurd h (by simp)
      · split at h
        · exact absurd h (by simp)
        · split at h
          · simp at h
          · simp only [Option.some.injEq] at h
            rename_i m hm hbig hdef
            obtain rfl : m = n := by simpa using h
            exact ⟨by omega, hdef⟩
  · simp at h

theorem splitPathQuery_WF {rest : List Char}
    (h : rest = [] ∨ ∃ d t, rest = d :: t ∧ d ∈ ['/', '\\', '?', '#']) :
    pathWF (splitPathQuery rest).1 := by
  rcases h with rfl | ⟨d, t, rfl, hd⟩
  · simpa [splitPathQuery, breakAtSet] using pathWF_slash
  · by_cases hq : d ∈ ['?', '#']
    · rw [show splitPathQuery (d :: t) = ("/", (splitPathQuery (d :: t)).2) from ?_]
      · exact pathWF_slash
      · unfold splitPathQuery
        rw [breakAtSet_stop t hq]
        simp
    · have hds : d = '/' ∨ d = '\\' := by
        simp only [List.mem_cons, List.not_mem_nil, or_false] at hd hq
        push_neg at hq
        rcases hd with rfl | rfl | rfl | rfl
        · exact Or.inl rfl
        · exact Or.inr rfl
        · exact absurd rfl hq.1
        · exact absurd rfl hq.2
      unfold splitPathQuery
      have hne : d ∉ (['?', '#'] : List Char) := hq
      simp only [breakAtSet, if_neg hne]
      have hnil : (d :: (breakAtSet ['?', '#'] t).1) ≠ [] := by simp
      rw [if_neg hnil]
      obtain ⟨t', ht'⟩ := processPath_head (breakAtSet ['?', '#'] t).1 hds
      have hchars : ∀ c ∈ d :: (breakAtSet ['?', '#'] t).1, c ≠ '?' ∧ c ≠ '#' := by
        intro c hc
        rcases List.mem_cons.mp hc with rfl | hc
        · rcases hds with rfl | rfl
          · exact ⟨by decide, by decide⟩
          · exact ⟨by decide, by decide⟩
        · have := (breakAtSet_spec ['?', '#'] t).2.1 c hc
          simp only [List.mem_cons, List.not_mem_nil, or_false] at this
          push_neg at this
          exact this
      refine ⟨?_, ?_, ?_⟩
      · rw [ht']
        simp
      · simp [ht']
      · intro c hc
        exact processPath_props hchars c hc

theorem parseSpecialRest_WF {scheme : String} {r : List Char} {u : URLRec}
    (hs : scheme ∈ specialList) (h : parseSpecialRest scheme r = some u) :
    WF u ∧ u.scheme = scheme ∧ u.query = (splitPathQuery
      (breakAtSet ['/', '\\', '?', '#'] (r.dropWhile fun c => c = '/' || c = '\\')).2).2 := by
  unfold parseSpecialRest at h
  set r' := r.dropWhile fun c => c = '/' || c = '\\' with hr'
  set ar := breakAtSet ['/', '\\', '?', '#'] r' with har
  set hp := hostPort ar.1 with hhp
  set hcolon := breakAtSet [':'] hp with hhc
  by_cases h0 : hcolon.1 = []
  · rw [if_pos h0] at h; simp at h
  · rw [if_neg h0] at h
    by_cases h1 : hcolon.1.any fun c => !hostOk c
    · rw [if_pos h1] at h; simp at h
    · rw [if_neg h1] at h
      match hport : parsePort scheme hcolon.2 with
      | none => rw [hport] at h; simp at h
      | some port =>
          rw [hport] at h
          simp only [Option.some.injEq] at h
          subst h
          have hallOk : ∀ c ∈ hcolon.1, hostOk c = true := by simpa using h1
          refine ⟨⟨hs, ?_, ?_, ?_, ?_⟩, rfl, rfl⟩
          · simpa using h0
          · intro c hc
            simp only [List.mem_map] at hc
            obtain ⟨c0, hc0, rfl⟩ := hc
            exact ⟨hostOk_toLower (hallOk c0 hc0), char_toLower_toLower c0⟩
          · exact parsePort_WF hport
          · refine splitPathQuery_WF ?_
            exact (breakAtSet_spec ['/', '\\', '?', '#'] r').2.2

/-! ## Round trip: parsing a serialised special URL -/

theorem isWsChar_iff {c : Char} :
    isWsChar c = true ↔ (c.toNat = 32 ∨ c.toNat = 9 ∨ c.toNat = 10 ∨ c.toNat = 13) := by
  simp only [isWsChar, Bool.or_eq_true, decide_eq_true_eq]
  constructor
  · rintro (((rfl | rfl) | rfl) | rfl)
    · exact Or.inl rfl
    · exact Or.inr (Or.inl rfl)
    · exact Or.inr (Or.inr (Or.inl rfl))
    · exact Or.inr (Or.inr (Or.inr rfl))
  · rintro (h | h | h | h)
    · exact Or.inl (Or.inl (Or.inl (char_eq_of_toNat_eq (by rw [h]; decide))))
    · exact Or.inl (Or.inl (Or.inr (char_eq_of_toNat_eq (by rw [h]; decide))))
    · exact Or.inl (Or.inr (char_eq_of_toNat_eq (by rw [h]; decide)))
    · exact Or.inr (char_eq_of_toNat_eq (by rw [h]; decide))

theorem isWsChar_false_of_gt {c : Char} (h : 32 < c.toNat) : isWsChar c = false := by
  by_contra hc
  have := isWsChar_iff.mp (by simpa using hc)
  omega

theorem hostOk_char_facts {c : Char} (h : hostOk c = true) :
    c ∉ (['/', '\\', '?', '#'] : List Char) ∧ c ≠ ':' ∧ c ≠ '@' ∧
      isWsChar c = false ∧ (c = '/' || c = '\\') = false := by
  obtain ⟨hgt, _, h35, h47, h92, h63, h64, h58, _⟩ := hostOk_spec h
  have hf : c ≠ '/' := char_ne_of_toNat (by simpa using h47)
  have hb : c ≠ '\\' := char_ne_of_toNat (by simpa using h92)
  refine ⟨?_, char_ne_of_toNat (by simpa using h58),
    char_ne_of_toNat (by simpa using h64), isWsChar_false_of_gt hgt, by simp [hf, hb]⟩
  simp only [List.mem_cons, List.not_mem_nil, or_false]
  push_neg
  exact ⟨hf, hb, char_ne_of_toNat (by simpa using h63),
    char_ne_of_toNat (by simpa using h35)⟩

theorem digit_char_facts {c : Char} (h48 : 48 ≤ c.toNat) (h57 : c.toNat ≤ 57) :
    c ∉ (['/', '\\', '?', '#'] : List Char) ∧ c ≠ ':' ∧ c ≠ '@' ∧ isWsChar c = false := by
  refine ⟨?_, char_ne_of_toNat (by simpa using (show c.toNat ≠ 58 by omega)),
    char_ne_of_toNat (by simpa using (show c.toNat ≠ 64 by omega)),
    isWsChar_false_of_gt (by omega)⟩
  simp only [List.mem_cons, List.not_mem_nil, or_false]
  push_neg
  exact ⟨char_ne_of_toNat (by simpa using (show c.toNat ≠ 47 by omega)),
    char_ne_of_toNat (by simpa using (show c.toNat ≠ 92 by omega)),
    char_ne_of_toNat (by simpa using (show c.toNat ≠ 63 by omega)),
    char_ne_of_toNat (by simpa using (show c.toNat ≠ 35 by omega))⟩

theorem portSL_facts (portN : Option Nat) :
    ∀ c ∈ portSL portN,
      c ∉ (['/', '\\', '?', '#'] : List Char) ∧ c ≠ '@' ∧ isWsChar c = false := by
  intro c hc
  match portN with
  | none => simp [portSL] at hc
  | some n =>
      rcases List.mem_cons.mp hc with rfl | hc
      · exact ⟨by decide, by decide, by decide⟩
      · obtain ⟨h48, h57⟩ := natDigits_digit_bounds n c hc
        obtain ⟨m1, _, m3, m4⟩ := digit_char_facts h48 h57
        exact ⟨m1, m3, m4⟩

theorem parseSpecialRest_serialized (s₀ : String) (hostD : List Char)
    (portN : Option Nat) (pD : List Char)
    (hne : hostD ≠ [])
    (hhost : ∀ c ∈ hostD, hostOk c = true ∧ Char.toLower c = c)
    (hprt : ∀ n, portN = some n → n ≤ 65535 ∧ defaultPort s₀ ≠ some n)
    (hpne : pD ≠ []) (hph : pD.head? = some '/')
    (hpc : ∀ c ∈ pD, needsEnc c = false ∧ c ≠ '?' ∧ c ≠ '#' ∧ c ≠ '\\') :
    parseSpecialRest s₀ ('/' :: '/' :: (hostD ++ portSL portN ++ pD)) =
      some { scheme := s₀, host := String.mk hostD, port := portN,
             pathname := String.mk pD, query := none } := by
  obtain ⟨h0, ht, rfl⟩ : ∃ h0 ht, hostD = h0 :: ht := by
    cases hostD with
    | nil => exact absurd rfl hne
    | cons a b => exact ⟨a, b, rfl⟩
  obtain ⟨p0, pt, rfl⟩ : ∃ p0 pt, pD = p0 :: pt := by
    cases pD with
    | nil => exact absurd rfl hpne
    | cons a b => exact ⟨a, b, rfl⟩
  obtain rfl : p0 = '/' := by simpa using hph
  have hh0 := (hostOk_char_facts (hhost h0 (List.mem_cons_self h0 ht)).1).2.2.2.2
  have hdrop : (('/' :: '/' :: ((h0 :: ht) ++ portSL portN ++ ('/' :: pt))).dropWhile
        fun c => c = '/' || c = '\\') =
      (h0 :: ht) ++ portSL portN ++ ('/' :: pt) := by
    simp only [List.dropWhile_cons]
    norm_num [hh0]
  have hnm1 : ∀ c ∈ (h0 :: ht) ++ portSL portN, c ∉ (['/', '\\', '?', '#'] : List Char) := by
    intro c hc
    rcases List.mem_append.mp hc with hc | hc
    · exact (hostOk_char_facts (hhost c hc).1).1
    · exact (portSL_facts portN c hc).1
  have hbreak1 : breakAtSet ['/', '\\', '?', '#'] ((h0 :: ht) ++ portSL portN ++ ('/' :: pt)) =
      ((h0 :: ht) ++ portSL portN, '/' :: pt) := by
    rw [breakAtSet_append hnm1, breakAtSet_stop pt (by decide)]
    simp
  have hhp : hostPort ((h0 :: ht) ++ portSL portN) = (h0 :: ht) ++ portSL portN := by
    apply hostPort_no_at
    intro hc
    rcases List.mem_append.mp hc with hc | hc
    · exact (hostOk_char_facts (hhost '@' hc).1).2.2.1 rfl
    · exact (portSL_facts portN '@' hc).2.1 rfl
  have hnm2 : ∀ c ∈ h0 :: ht, c ∉ ([':'] : List Char) := by
    intro c hc hmem
    have : c = ':' := by simpa using hmem
    exact (hostOk_char_facts (hhost c hc).1).2.1 this
  have hbreak2 : breakAtSet [':'] ((h0 :: ht) ++ portSL portN) =
      (h0 :: ht, portSL portN) := by
    have hstep : breakAtSet [':'] (portSL portN) = ([], portSL portN) := by
      match portN with
      | none => simp [portSL, breakAtSet]
      | some n => exact breakAtSet_stop _ (by decide)
    rw [breakAtSet_append hnm2, hstep]
    simp
  have hpp : parsePort s₀ (portSL portN) = some portN := by
    match portN with
    | none => simp [portSL, parsePort]
    | some n =>
        obtain ⟨hb, hd⟩ := hprt n rfl
        simp only [portSL, parsePort, if_neg (natDigits_ne_nil n), digitsVal_natDigits]
        rw [if_neg (by omega), if_neg hd]
  have hsp : splitPathQuery ('/' :: pt) = (String.mk ('/' :: pt), none) := by
    unfold splitPathQuery
    rw [breakAtSet_all (by
      intro c hc hmem
      have := hpc c hc
      rcases (by simpa using hmem : c = '?' ∨ c = '#') with rfl | rfl
      · exact this.2.1 rfl
      · exact this.2.2.1 rfl)]
    dsimp only
    rw [if_neg (by simp), processPath_fixed (by
      intro c hc
      exact ⟨(hpc c hc).1, (hpc c hc).2.2.2⟩)]
  have hany : ¬(((h0 :: ht).any fun c => !hostOk c) = true) := by
    simp only [List.any_eq_true, Bool.not_eq_true']
    push_neg
    intro c hc
    simp only [Bool.not_eq_false]
    exact (hhost c hc).1
  unfold parseSpecialRest
  simp only [hdrop, hbreak1, hhp, hbreak2, hpp, hsp]
  rw [if_neg (by simp), if_neg hany]
  rw [map_eq_self fun c hc => (hhost c hc).2]

theorem string_data_append (a b : String) : (a ++ b).data = a.data ++ b.data := rfl

theorem parseURL_serialized_core (sch : String) (c0 : Char) (st : List Char)
    (hdata : sch.data = c0 :: st)
    (halpha : c0.isAlpha = true)
    (hschars : ∀ c ∈ c0 :: st, schemeChar c = true ∧ c ≠ ':' ∧ isWsChar c = false)
    (hlower : (c0 :: st).map Char.toLower = c0 :: st)
    (hspl : sch ∈ specialList)
    (host : String) (port : Option Nat) (p : String)
    (hne : host.data ≠ [])
    (hhost : ∀ c ∈ host.data, hostOk c = true ∧ Char.toLower c = c)
    (hprt : ∀ n, port = some n → n ≤ 65535 ∧ defaultPort sch ≠ some n)
    (hp : pathWF p) :
    parseURL (sch ++ "://" ++ host ++ String.mk (portSL port) ++ p) =
      some { scheme := sch, host := host, port := port, pathname := p, query := none } := by
  obtain ⟨hpne, hph, hpc⟩ := hp
  have hfull : (sch ++ "://" ++ host ++ String.mk (portSL port) ++ p).data =
      c0 :: (st ++ ':' :: ('/' :: '/' :: (host.data ++ portSL port ++ p.data))) := by
    simp only [string_data_append, hdata]
    simp [List.append_assoc]
  have hws : ∀ c ∈ c0 :: (st ++ ':' :: ('/' :: '/' ::
      (host.data ++ portSL port ++ p.data))), isWsChar c = false := by
    intro c hc
    rcases List.mem_cons.mp hc with rfl | hc
    · exact (hschars _ (List.mem_cons_self _ _)).2.2
    rcases List.mem_append.mp hc with hc | hc
    · exact (hschars c (List.mem_cons_of_mem _ hc)).2.2
    rcases List.mem_cons.mp hc with rfl | hc
    · decide
    rcases List.mem_cons.mp hc with rfl | hc
    · decide
    rcases List.mem_cons.mp hc with rfl | hc
    · decide
    rcases List.mem_append.mp hc with hc | hc
    · rcases List.mem_append.mp hc with hc | hc
      · exact (hostOk_char_facts (hhost c hc).1).2.2.2.1
      · exact (portSL_facts port c hc).2.2
    · exact isWsChar_false_of_gt (by have := needsEnc_false_ge (hpc c hc).1; omega)
  have hsch' : ∀ c ∈ st, schemeChar c = true ∧ c ≠ ':' :=
    fun c hc => ⟨(hschars c (List.mem_cons_of_mem _ hc)).1,
      (hschars c (List.mem_cons_of_mem _ hc)).2.1⟩
  unfold parseURL
  rw [hfull, trimChars_eq_self hws]
  dsimp only
  rw [if_pos halpha]
  rw [takeScheme_append hsch' [c0]]
  dsimp only
  simp only [List.reverse_singleton, List.singleton_append]
  have hmk : String.mk ((c0 :: st).map Char.toLower) = sch := by
    rw [hlower, ← hdata]
  rw [hmk, if_pos hspl]
  rw [parseSpecialRest_serialized sch host.data port p.data hne hhost hprt hpne hph hpc]

theorem parseURL_WF {s : String} {u : URLRec} (h : parseURL s = some u)
    (hs : u.scheme ∈ specialList) : WF u := by
  unfold parseURL at h
  match htr : trimChars s.data, h with
  | [], h => simp at h
  | c :: cs, h =>
      dsimp only at h
      by_cases ha : c.isAlpha
      · rw [if_pos ha] at h
        match hts : takeScheme [c] cs, h with
        | none, h => simp at h
        | some sr, h =>
            dsimp only at h
            by_cases hsp : String.mk (sr.1.map Char.toLower) ∈ specialList
            · rw [if_pos hsp] at h
              exact (parseSpecialRest_WF hsp h).1
            · rw [if_neg hsp] at h
              unfold parseNonSpecialRest at h
              simp only [Option.some.injEq] at h
              subst h
              exact absurd hs hsp
      · rw [if_neg ha] at h
        simp at h

theorem parseURL_serialized {u : URLRec} (hu : WF u) {p : String} (hp : pathWF p) :
    parseURL (origin u ++ p) =
      some { scheme := u.scheme, host := u.host, port := u.port,
             pathname := p, query := none } := by
  obtain ⟨sch, host, port, pathn, q⟩ := u
  obtain ⟨hs, hne, hhost, hport, hpath⟩ := hu
  have horig : origin ⟨sch, host, port, pathn, q⟩ =
      sch ++ "://" ++ host ++ String.mk (portSL port) := by
    simp only [origin, if_pos hs]
  rw [horig]
  dsimp only at hne hhost hport ⊢
  fin_cases hs
  · exact parseURL_serialized_core "http" 'h' ['t', 't', 'p'] rfl (by decide)
      (by decide) (by decide) (by decide) host port p hne hhost hport hp
  · exact parseURL_serialized_core "https" 'h' ['t', 't', 'p', 's'] rfl (by decide)
      (by decide) (by decide) (by decide) host port p hne hhost hport hp
  · exact parseURL_serialized_core "ws" 'w' ['s'] rfl (by decide)
      (by decide) (by decide) (by decide) host port p hne hhost hport hp
  · exact parseURL_serialized_core "wss" 'w' ['s', 's'] rfl (by decide)
      (by decide) (by decide) (by decide) host port p hne hhost hport hp
  · exact parseURL_serialized_core "ftp" 'f' ['t', 'p'] rfl (by decide)
      (by decide) (by decide) (by decide) host port p hne hhost hport hp

theorem parseURL_empty : parseURL "" = none := rfl

theorem origin_of_nonspecial {u : URLRec} (h : u.scheme ∉ specialList) : origin u = "null" := by
  simp only [origin, if_neg h]

theorem shouldUseOrigin_eq_false (u : URLRec) (hq : u.query = none)
    (hpath : strContains (strLower u.pathname) "/openid-connect/auth" = false) :
    shouldUseOrigin u = false := by
  unfold shouldUseOrigin
  have h2 : strContains (strLower u.pathname) "/protocol/openid-connect/auth" = false := by
    by_contra hc
    have h2t : "/protocol/openid-connect/auth".data <:+: (strLower u.pathname).data := by
      have := (Bool.not_eq_false _).mp hc
      simpa [strContains] using this
    have hshort : "/openid-connect/auth".data <:+: "/protocol/openid-connect/auth".data := by
      decide
    have : strContains (strLower u.pathname) "/openid-connect/auth" = true := by
      simp only [strContains, decide_eq_true_eq]
      exact hshort.trans h2t
    simp [this] at hpath
  simp [hpath, h2, searchParamsHas, hq]

theorem shouldUseOrigin_parts {u : URLRec} (h : shouldUseOrigin u = false) :
    strContains (strLower u.pathname) "/openid-connect/auth" = false := by
  unfold shouldUseOrigin at h
  simp only [Bool.or_eq_false_iff] at h
  exact h.1.1

theorem slash_no_oidc : strContains (strLower "/") "/openid-connect/auth" = false := by
  decide

/-- C5 (amended): the URL normalizer is idempotent on every input whose
parsed URL has a non-opaque origin (origin ≠ "null", i.e. an http/https/ws/
wss/ftp URL): if `buildCheckUrl x = some y` then `buildCheckUrl y = some y`.
(For opaque-origin URLs such as `mailto:`, the output is `"null" ++ path`,
which need not re-parse — see the counterexample.) -/
theorem claim_C5_normalizer_idempotent (x : String) (u : URLRec)
    (hx : parseURL x = some u) (hnn : origin u ≠ "null") (y : String)
    (hy : buildCheckUrl (some x) = some y) :
    buildCheckUrl (some y) = some y := by
  have hsp : u.scheme ∈ specialList := by
    by_contra hs
    exact hnn (origin_of_nonspecial hs)
  have hwf : WF u := parseURL_WF hx hsp
  have hx0 : x ≠ "" := by
    intro e
    rw [e, parseURL_empty] at hx
    exact Option.noConfusion hx
  unfold buildCheckUrl at hy
  dsimp only at hy
  rw [if_neg hx0, hx] at hy
  dsimp only at hy
  by_cases hso : shouldUseOrigin u = true
  · rw [if_pos hso] at hy
    obtain rfl : origin u ++ "/" = y := by simpa using hy
    have hser := parseURL_serialized hwf pathWF_slash
    have hy0 : origin u ++ "/" ≠ "" := by
      intro e
      rw [e, parseURL_empty] at hser
      exact Option.noConfusion hser
    unfold buildCheckUrl
    dsimp only
    rw [if_neg hy0, hser]
    dsimp only
    rw [shouldUseOrigin_eq_false ⟨u.scheme, u.host, u.port, "/", none⟩ rfl slash_no_oidc]
    simp [origin]
  · rw [if_neg hso] at hy
    obtain rfl : origin u ++ u.pathname = y := by simpa using hy
    have hpwf : pathWF u.pathname := hwf.2.2.2.2
    have hser := parseURL_serialized hwf hpwf
    have hy0 : origin u ++ u.pathname ≠ "" := by
      intro e
      rw [e, parseURL_empty] at hser
      exact Option.noConfusion hser
    unfold buildCheckUrl
    dsimp only
    rw [if_neg hy0, hser]
    dsimp only
    have hparts : strContains (strLower u.pathname) "/openid-connect/auth" = false :=
      shouldUseOrigin_parts (Bool.not_eq_true _ ▸ hso : shouldUseOrigin u = false)
    rw [shouldUseOrigin_eq_false ⟨u.scheme, u.host, u.port, u.pathname, none⟩ rfl hparts]
    simp [origin]

/-! ## Dictionary lemmas -/

theorem mapGet_objSet {α : Type} (m : List (String × α)) (k k' : String) (v : α) :
    mapGet (objSet m k v) k' = if k = k' then some v else mapGet m k' := by
  induction m with
  | nil =>
      by_cases h : k = k'
      · simp [objSet, mapGet, h]
      · simp [objSet, mapGet, h]
  | cons p t ih =>
      obtain ⟨k0, v0⟩ := p
      by_cases h0 : k0 = k
      · subst h0
        by_cases h : k0 = k'
        · simp [objSet, mapGet, h]
        · simp [objSet, mapGet, h]
      · by_cases h : k0 = k'
        · subst h
          have : ¬k = k0 := fun e => h0 e.symm
          simp [objSet, mapGet, h0, this]
        · simp [objSet, mapGet, h0, h, ih]

theorem objSet_of_absent {α : Type} {m : List (String × α)} {k : String}
    (h : mapGet m k = none) (v : α) : objSet m k v = m ++ [(k, v)] := by
  induction m with
  | nil => simp [objSet]
  | cons p t ih =>
      obtain ⟨k0, v0⟩ := p
      simp only [mapGet] at h
      by_cases h0 : k0 = k
      · rw [if_pos h0] at h
        exact absurd h (by simp)
      · rw [if_neg h0] at h
        simp [objSet, h0, ih h]

theorem filter_objSet_ne {α : Type} (m : List (String × α)) {k id : String}
    (h : k ≠ id) (v : α) :
    ((objSet m k v).filter fun p => p.1 = id).length =
      (m.filter fun p => p.1 = id).length := by
  induction m with
  | nil => simp [objSet, h]
  | cons p t ih =>
      obtain ⟨k0, v0⟩ := p
      by_cases h0 : k0 = k
      · subst h0
        simp [objSet, List.filter, h]
      · simp only [objSet, if_neg h0, List.filter]
        by_cases hid : k0 = id
        · simp [hid, ih]
        · simp [hid, ih]

theorem filter_append_single_eq {α : Type} (m : List (String × α)) (k : String) (v : α) :
    ((m ++ [(k, v)]).filter fun p => p.1 = k).length =
      (m.filter fun p => p.1 = k).length + 1 := by
  rw [List.filter_append, List.length_append]
  simp

/-! ## Step-level behaviour of the orchestrator -/

theorem hash_unparsable : buildCheckUrl (some "#") = none := by decide

theorem stepTarget_unknown (env : Env) (slowMs : ℚ) (now : Int) (cache : Cache)
    (t : Target) (h : buildCheckUrl (resolvePrimary t) = none) :
    stepTarget env slowMs now cache t =
      { status := Status.unknown, detail := none, cache := cache,
        httpCalls := 0, tcpCalls := 0 } := by
  unfold stepTarget
  dsimp only
  rw [h]

theorem stepTarget_hit (env : Env) (slowMs : ℚ) (now : Int) (cache : Cache)
    (t : Target) (url : String) (e : CacheEntry)
    (hurl : buildCheckUrl (resolvePrimary t) = some url)
    (hch : resolvePrimary t ≠ some "#")
    (he : mapGet cache t.id = some e)
    (hf : now - e.ts < HEALTH_CACHE_MS) :
    stepTarget env slowMs now cache t =
      { status := e.status, detail := e.details, cache := cache,
        httpCalls := 0, tcpCalls := 0 } := by
  unfold stepTarget
  dsimp only
  rw [hurl]
  dsimp only
  rw [if_neg hch, he]
  dsimp only
  rw [if_pos hf]

theorem stepTarget_miss (env : Env) (slowMs : ℚ) (now : Int) (cache : Cache)
    (t : Target) (url : String)
    (hurl : buildCheckUrl (resolvePrimary t) = some url)
    (hch : resolvePrimary t ≠ some "#")
    (he : mapGet cache t.id = none) :
    stepTarget env slowMs now cache t = probeTarget env slowMs now cache t url := by
  unfold stepTarget
  dsimp only
  rw [hurl]
  dsimp only
  rw [if_neg hch, he]

theorem stepTarget_stale (env : Env) (slowMs : ℚ) (now : Int) (cache : Cache)
    (t : Target) (url : String) (e : CacheEntry)
    (hurl : buildCheckUrl (resolvePrimary t) = some url)
    (hch : resolvePrimary t ≠ some "#")
    (he : mapGet cache t.id = some e)
    (hf : ¬(now - e.ts < HEALTH_CACHE_MS)) :
    stepTarget env slowMs now cache t = probeTarget env slowMs now cache t url := by
  unfold stepTarget
  dsimp only
  rw [hurl]
  dsimp only
  rw [if_neg hch, he]
  dsimp only
  rw [if_neg hf]

theorem probeTarget_shape (env : Env) (slowMs : ℚ) (now : Int) (cache : Cache)
    (t : Target) (url : String) :
    (probeTarget env slowMs now cache t url).cache =
      objSet cache t.id
        { status := (probeTarget env slowMs now cache t url).status, ts := now,
          details := (probeTarget env slowMs now cache t url).detail } ∧
    (probeTarget env slowMs now cache t url).httpCalls = 3 ∧
    (probeTarget env slowMs now cache t url).status ≠ Status.unknown ∧
    ∃ r, (probeTarget env slowMs now cache t url).detail = some r := by
  unfold probeTarget
  dsimp only
  refine ⟨rfl, rfl, ?_, ⟨_, rfl⟩⟩
  have gen : ∀ (p q : Prop) (dp : Decidable p) (dq : Decidable q),
      (if p then Status.online else if q then Status.offline else Status.unstable) ≠
        Status.unknown := by
    intro p q dp dq
    split
    · simp
    · split <;> simp
  exact gen _ _ _ _

/-! ## Median and aggregator lemmas -/

theorem median_nil : median [] = none := rfl

theorem median_isSome {l : List ℚ} (h : l ≠ []) : ∃ m, median l = some m := by
  unfold median
  rw [if_neg (by simpa using h)]
  dsimp only
  by_cases hp : l.length % 2 = 1
  · rw [if_pos hp]; exact ⟨_, rfl⟩
  · rw [if_neg hp]; exact ⟨_, rfl⟩

theorem fetchHealthUrl_attempts (probe : Nat → Attempt) (slowMs : ℚ) :
    (fetchHealthUrl probe slowMs).attempts = 3 := rfl

theorem fetchHealthUrl_success_eq (probe : Nat → Attempt) (slowMs : ℚ) :
    (fetchHealthUrl probe slowMs).success =
      ((fetchResults probe).filter fun a => a.ok).length := rfl

theorem fetchHealthUrl_medianMs_eq (probe : Nat → Attempt) (slowMs : ℚ) :
    (fetchHealthUrl probe slowMs).medianMs =
      median (((fetchResults probe).filter fun a => a.ok).map fun a => (a.ms : ℚ)) := rfl

theorem fetchHealthUrl_status_eq (probe : Nat → Attempt) (slowMs : ℚ) :
    (fetchHealthUrl probe slowMs).status =
      (if (fetchHealthUrl probe slowMs).success = 3 then
        match (fetchHealthUrl probe slowMs).medianMs with
        | some m => if slowMs ≤ m then HState.unstable else HState.up
        | none => HState.up
      else if 0 < (fetchHealthUrl probe slowMs).success then HState.unstable
      else HState.down) := rfl

theorem fetchHealthUrl_success_le (probe : Nat → Attempt) (slowMs : ℚ) :
    (fetchHealthUrl probe slowMs).success ≤ 3 := by
  rw [fetchHealthUrl_success_eq]
  calc ((fetchResults probe).filter fun a => a.ok).length
      ≤ (fetchResults probe).length := List.length_filter_le _ _
    _ = 3 := rfl

theorem fetchHealthUrl_median_some {probe : Nat → Attempt} {slowMs : ℚ}
    (h : (fetchHealthUrl probe slowMs).success ≠ 0) :
    ∃ m, (fetchHealthUrl probe slowMs).medianMs = some m := by
  rw [fetchHealthUrl_medianMs_eq]
  apply median_isSome
  intro he
  rw [fetchHealthUrl_success_eq] at h
  rw [List.map_eq_nil_iff] at he
  rw [he] at h
  simp at h

theorem fetchHealthUrl_median_none {probe : Nat → Attempt} {slowMs : ℚ}
    (h : (fetchHealthUrl probe slowMs).success = 0) :
    (fetchHealthUrl probe slowMs).medianMs = none := by
  rw [fetchHealthUrl_medianMs_eq]
  rw [fetchHealthUrl_success_eq] at h
  rw [List.length_eq_zero] at h
  rw [h]
  rfl

theorem fetchHealthUrl_status_down {probe : Nat → Attempt} {slowMs : ℚ}
    (h : (fetchHealthUrl probe slowMs).success = 0) :
    (fetchHealthUrl probe slowMs).status = HState.down := by
  rw [fetchHealthUrl_status_eq, h]
  norm_num

/-- C1: every evaluation performs exactly 3 probe attempts, and the verdict
is `up` iff all 3 succeed with median latency below the slow threshold,
`down` iff 0 succeed, and `unstable` iff all 3 succeed with median at or
above the threshold or exactly 1 or 2 succeed. -/
theorem claim_C1_aggregator_classification (probe : Nat → Attempt) (slowMs : ℚ) :
    (fetchResults probe).length = 3 ∧
    (fetchHealthUrl probe slowMs).attempts = 3 ∧
    ((fetchHealthUrl probe slowMs).status = HState.up ↔
      ((fetchHealthUrl probe slowMs).success = 3 ∧
        ∃ m, (fetchHealthUrl probe slowMs).medianMs = some m ∧ m < slowMs)) ∧
    ((fetchHealthUrl probe slowMs).status = HState.down ↔
      (fetchHealthUrl probe slowMs).success = 0) ∧
    ((fetchHealthUrl probe slowMs).status = HState.unstable ↔
      (((fetchHealthUrl probe slowMs).success = 3 ∧
        ∃ m, (fetchHealthUrl probe slowMs).medianMs = some m ∧ slowMs ≤ m) ∨
       (fetchHealthUrl probe slowMs).success = 1 ∨
       (fetchHealthUrl probe slowMs).success = 2)) := by
  refine ⟨rfl, rfl, ?_⟩
  have hle := fetchHealthUrl_success_le probe slowMs
  by_cases h3 : (fetchHealthUrl probe slowMs).success = 3
  · obtain ⟨m, hm⟩ :=
      fetchHealthUrl_median_some
        (show (fetchHealthUrl probe slowMs).success ≠ 0 by omega)
    have hst : (fetchHealthUrl probe slowMs).status =
        if slowMs ≤ m then HState.unstable else HState.up := by
      rw [fetchHealthUrl_status_eq, hm, h3]
      norm_num
    by_cases hc : slowMs ≤ m
    · rw [hst, if_pos hc]
      refine ⟨⟨fun h => absurd h (by decide), ?_⟩,
        ⟨fun h => absurd h (by decide), fun h0 => absurd (h3 ▸ h0) (by decide)⟩,
        ⟨fun _ => Or.inl ⟨h3, m, hm, hc⟩, fun _ => rfl⟩⟩
      rintro ⟨-, m', hm', hlt⟩
      rw [hm] at hm'
      obtain rfl : m = m' := by simpa using hm'
      exact absurd hlt (not_lt.mpr hc)
    · rw [hst, if_neg hc]
      refine ⟨⟨fun _ => ⟨h3, m, hm, not_le.mp hc⟩, fun _ => rfl⟩,
        ⟨fun h => absurd h (by decide), fun h0 => absurd (h3 ▸ h0) (by decide)⟩,
        ⟨fun h => absurd h (by decide), ?_⟩⟩
      rintro (⟨-, m', hm', hge⟩ | h1 | h2)
      · rw [hm] at hm'
        obtain rfl : m = m' := by simpa using hm'
        exact absurd hge hc
      · omega
      · omega
  · by_cases h0 : (fetchHealthUrl probe slowMs).success = 0
    · have hst := fetchHealthUrl_status_down h0
      rw [hst]
      refine ⟨⟨fun h => absurd h (by decide), fun hh => absurd (hh.1 ▸ h0) (by omega)⟩,
        ⟨fun _ => h0, fun _ => rfl⟩,
        ⟨fun h => absurd h (by decide), ?_⟩⟩
      rintro (⟨hs3, -⟩ | h1 | h2)
      · exact absurd hs3 h3
      · omega
      · omega
    · have hst : (fetchHealthUrl probe slowMs).status = HState.unstable := by
        rw [fetchHealthUrl_status_eq]
        rw [if_neg h3, if_pos (by omega)]
      rw [hst]
      refine ⟨⟨fun h => absurd h (by decide), fun hh => absurd hh.1 h3⟩,
        ⟨fun h => absurd h (by decide), fun hh => absurd hh h0⟩,
        ⟨fun _ => Or.inr (by omega), fun _ => rfl⟩⟩

/-- C3: `median` returns `null` on the empty list and otherwise the middle
element (odd count) or the mean of the two middle elements (even count) of
the ascending sort; in particular `[100,200,300] → 200`, `[100,300] → 200`,
`[] → null`. -/
theorem claim_C3_median :
    median [] = none ∧
    (∀ l : List ℚ, l ≠ [] →
      ∃ s : List ℚ, s.Perm l ∧ List.Sorted (· ≤ ·) s ∧
        median l = some (if l.length % 2 = 1 then s.getD (l.length / 2) 0
          else (s.getD (l.length / 2 - 1) 0 + s.getD (l.length / 2) 0) / 2)) ∧
    median [100, 200, 300] = some 200 ∧ median [100, 300] = some 200 := by
  refine ⟨rfl, ?_, by decide, ?_⟩
  · intro l hl
    refine ⟨l.insertionSort (· ≤ ·), List.perm_insertionSort _ l,
      List.sorted_insertionSort _ l, ?_⟩
    unfold median
    rw [if_neg (by simpa using hl)]
    dsimp only
    by_cases hp : l.length % 2 = 1
    · rw [if_pos hp, if_pos hp]
    · rw [if_neg hp, if_neg hp]
  · unfold median
    norm_num [List.insertionSort, List.orderedInsert]

/-- Witness for C3 at the concrete list `[100, 200, 300]`. -/
theorem claim_C3_median_witness :
    ([100, 200, 300] : List ℚ) ≠ [] ∧
    (∃ s : List ℚ, s.Perm [100, 200, 300] ∧ List.Sorted (· ≤ ·) s ∧
      median [100, 200, 300] = some (if ([100, 200, 300] : List ℚ).length % 2 = 1
        then s.getD (([100, 200, 300] : List ℚ).length / 2) 0
        else (s.getD (([100, 200, 300] : List ℚ).length / 2 - 1) 0 +
          s.getD (([100, 200, 300] : List ℚ).length / 2) 0) / 2)) :=
  ⟨by decide, claim_C3_median.2.1 [100, 200, 300] (by decide)⟩

/-- C9: one HTTP probe reports `ok = true` exactly when a response arrived
with status below 500; every rejection (network error, DNS failure,
timeout) is caught and reported as `ok = false`; the elapsed time is
reported in both cases, as a non-negative integer, and `oneTry` is a total
function (no exception escapes). -/
theorem claim_C9_one_probe (o : FetchOutcome) :
    ((oneTry o).ok = true ↔
      ∃ status ms, o = FetchOutcome.success status ms ∧ status < 500) ∧
    (oneTry o).ms = o.elapsed ∧ 0 ≤ (oneTry o).ms := by
  refine ⟨?_, ?_, Nat.zero_le _⟩
  · cases o with
    | success status ms =>
        simp only [oneTry, decide_eq_true_eq]
        constructor
        · intro h
          exact ⟨status, ms, rfl, h⟩
        · rintro ⟨s', m', he, hlt⟩
          injection he with h1 h2
          subst h1
          exact hlt
    | failure ms =>
        simp only [oneTry]
        constructor
        · intro h
          exact absurd h (by decide)
        · rintro ⟨s', m', he, hlt⟩
          exact FetchOutcome.noConfusion he
  · cases o <;> rfl

/-- C10: a `checkUrl` that is absent, empty, or whitespace-only is treated
as absent when resolving the probing URL, falling back to `href`; a
`checkUrl` with any non-whitespace content is used. -/
theorem claim_C10_checkurl_whitespace (t : Target) :
    (t.checkUrl = none → resolvePrimary t = t.href) ∧
    (∀ s, t.checkUrl = some s → jsTrim s = "" → resolvePrimary t = t.href) ∧
    (∀ s, t.checkUrl = some s → jsTrim s ≠ "" → resolvePrimary t = some s) := by
  refine ⟨?_, ?_, ?_⟩
  · intro h
    unfold resolvePrimary
    rw [h]
  · intro s hs htrim
    unfold resolvePrimary
    rw [hs]
    dsimp only
    rw [if_neg (by simp [htrim])]
  · intro s hs htrim
    unfold resolvePrimary
    rw [hs]
    dsimp only
    have hs0 : s ≠ "" := by
      intro e
      subst e
      exact htrim rfl
    rw [if_pos ⟨hs0, htrim⟩]

/-- Witness for C10: a whitespace-only `checkUrl` falls back to `href`. -/
theorem claim_C10_checkurl_whitespace_witness :
    jsTrim "   " = "" ∧
    resolvePrimary { id := "x", href := some "http://a/", checkUrl := some "   " } =
      some "http://a/" :=
  ⟨by decide,
    (claim_C10_checkurl_whitespace
      { id := "x", href := some "http://a/", checkUrl := some "   " }).2.1
      "   " rfl (by decide)⟩

/-- C6: for a parseable URL the normalizer returns `origin ++ "/"` exactly
when the lowercased path contains an OpenID-Connect authorization segment
or the query carries one of `state`, `nonce`, `code`; for every other
parseable URL it returns `origin ++ pathname` (query and fragment
stripped); for absent or unparsable input it returns `null`. -/
theorem claim_C6_normalizer_shape (x : String) :
    buildCheckUrl none = none ∧
    (parseURL x = none → buildCheckUrl (some x) = none) ∧
    (∀ u, parseURL x = some u →
      (strContains (strLower u.pathname) "/openid-connect/auth" ||
       strContains (strLower u.pathname) "/protocol/openid-connect/auth" ||
       searchParamsHas u.query "state" || searchParamsHas u.query "nonce" ||
       searchParamsHas u.query "code") = true →
      buildCheckUrl (some x) = some (origin u ++ "/")) ∧
    (∀ u, parseURL x = some u →
      (strContains (strLower u.pathname) "/openid-connect/auth" ||
       strContains (strLower u.pathname) "/protocol/openid-connect/auth" ||
       searchParamsHas u.query "state" || searchParamsHas u.query "nonce" ||
       searchParamsHas u.query "code") = false →
      buildCheckUrl (some x) = some (origin u ++ u.pathname)) := by
  have hcond : ∀ u : URLRec, shouldUseOrigin u =
      (strContains (strLower u.pathname) "/openid-connect/auth" ||
       strContains (strLower u.pathname) "/protocol/openid-connect/auth" ||
       searchParamsHas u.query "state" || searchParamsHas u.query "nonce" ||
       searchParamsHas u.query "code") := by
    intro u
    unfold shouldUseOrigin
    simp only [List.any_cons, List.any_nil, Bool.or_false]
    ac_rfl
  have hx0 : ∀ u, parseURL x = some u → x ≠ "" := by
    intro u hu e
    subst e
    rw [parseURL_empty] at hu
    exact Option.noConfusion hu
  refine ⟨rfl, ?_, ?_, ?_⟩
  · intro h
    unfold buildCheckUrl
    dsimp only
    by_cases he : x = ""
    · rw [if_pos he]
    · rw [if_neg he, h]
  · intro u hu hc
    unfold buildCheckUrl
    dsimp only
    rw [if_neg (hx0 u hu), hu]
    dsimp only
    rw [if_pos (by rw [hcond]; exact hc)]
  · intro u hu hc
    unfold buildCheckUrl
    dsimp only
    rw [if_neg (hx0 u hu), hu]
    dsimp only
    rw [if_neg (by rw [hcond, hc]; exact Bool.false_ne_true)]

/-- Witness for C6 on both branches: an OIDC login URL collapses to its
bare origin, a plain URL keeps its path and loses its query. -/
theorem claim_C6_normalizer_shape_witness :
    parseURL "https://sso.example/protocol/openid-connect/auth?state=abc" =
      some { scheme := "https", host := "sso.example", port := none,
             pathname := "/protocol/openid-connect/auth", query := some "state=abc" } ∧
    buildCheckUrl (some "https://sso.example/protocol/openid-connect/auth?state=abc") =
      some "https://sso.example/" ∧
    parseURL "http://example.com/app?a=1" =
      some { scheme := "http", host := "example.com", port := none,
             pathname := "/app", query := some "a=1" } ∧
    buildCheckUrl (some "http://example.com/app?a=1") = some "http://example.com/app" := by
  refine ⟨by decide, ?_, by decide, ?_⟩
  · exact (claim_C6_normalizer_shape
      "https://sso.example/protocol/openid-connect/auth?state=abc").2.2.1
      { scheme := "https", host := "sso.example", port := none,
        pathname := "/protocol/openid-connect/auth", query := some "state=abc" }
      (by decide) (by decide)
  · exact (claim_C6_normalizer_shape "http://example.com/app?a=1").2.2.2
      { scheme := "http", host := "example.com", port := none,
        pathname := "/app", query := some "a=1" }
      (by decide) (by decide)

/-- C7: a target whose resolved URL is absent, the literal `"#"`, or
unparsable gets status `unknown` with no probe and an unchanged cache; and
`unknown` is never stored in the cache by any run of `checkTargets`. -/
theorem claim_C7_unknown_no_cache (env : Env) (slowMs : ℚ) (now : Int)
    (cache : Cache) :
    (∀ t : Target,
      buildCheckUrl (resolvePrimary t) = none ∨ resolvePrimary t = some "#" →
      stepTarget env slowMs now cache t =
        { status := Status.unknown, detail := none, cache := cache,
          httpCalls := 0, tcpCalls := 0 }) ∧
    (∀ targets : List Target,
      (∀ id e, mapGet cache id = some e → e.status ≠ Status.unknown) →
      ∀ id e,
        mapGet (checkTargets env slowMs now targets cache).cache id = some e →
        e.status ≠ Status.unknown) := by
  constructor
  · intro t h
    rcases h with h | h
    · exact stepTarget_unknown env slowMs now cache t h
    · refine stepTarget_unknown env slowMs now cache t ?_
      rw [h, hash_unparsable]
  · have aux : ∀ (targets : List Target) (c : Cache)
        (s : List (String × StatusVal)) (d : List (String × Verdict)) (h tc : Nat),
        (∀ id e, mapGet c id = some e → e.status ≠ Status.unknown) →
        ∀ id e,
          mapGet (checkTargetsAux env slowMs now targets c s d h tc).cache id = some e →
          e.status ≠ Status.unknown := by
      intro targets
      induction targets with
      | nil =>
          intro c s d h tc hc id e hme
          exact hc id e hme
      | cons t rest ih =>
          intro c s d h tc hc id e hme
          refine ih _ _ _ _ _ ?_ id e hme
          intro id' e' hme'
          -- the step's cache is either unchanged or has one fresh non-unknown entry
          rcases hurl : buildCheckUrl (resolvePrimary t) with _ | url
          · rw [stepTarget_unknown env slowMs now c t hurl] at hme'
            exact hc id' e' hme'
          · by_cases hch : resolvePrimary t = some "#"
            · rw [stepTarget_unknown env slowMs now c t
                (by rw [hch, hash_unparsable])] at hme'
              exact hc id' e' hme'
            · have hprobe : ∀ (hmepr : mapGet (probeTarget env slowMs now c t url).cache
                  id' = some e'), e'.status ≠ Status.unknown := by
                intro hmepr
                obtain ⟨hcache, -, hstat, -⟩ :=
                  probeTarget_shape env slowMs now c t url
                rw [hcache, mapGet_objSet] at hmepr
                by_cases hid : t.id = id'
                · rw [if_pos hid] at hmepr
                  obtain rfl := Option.some.inj hmepr
                  exact hstat
                · rw [if_neg hid] at hmepr
                  exact hc id' e' hmepr
              rcases hmg : mapGet c t.id with _ | cached
              · rw [stepTarget_miss env slowMs now c t url hurl hch hmg] at hme'
                exact hprobe hme'
              · by_cases hf : now - cached.ts < HEALTH_CACHE_MS
                · rw [stepTarget_hit env slowMs now c t url cached hurl hch hmg hf] at hme'
                  exact hc id' e' hme'
                · rw [stepTarget_stale env slowMs now c t url cached hurl hch hmg hf] at hme'
                  exact hprobe hme'
    intro targets hc id e hme
    exact aux targets cache [] [] 0 0 hc id e hme

/-- Witness for C7: a `"#"` target yields `unknown`, touches nothing. -/
theorem claim_C7_unknown_no_cache_witness :
    resolvePrimary { id := "x", href := some "#", checkUrl := none } = some "#" ∧
    stepTarget ⟨fun _ _ => ⟨true, 1⟩, fun _ => ⟨true, 1⟩⟩ 1500 0
        [("y", { status := Status.online, ts := 0, details := none })]
        { id := "x", href := some "#", checkUrl := none } =
      { status := Status.unknown, detail := none,
        cache := [("y", { status := Status.online, ts := 0, details := none })],
        httpCalls := 0, tcpCalls := 0 } :=
  ⟨by decide,
    (claim_C7_unknown_no_cache ⟨fun _ _ => ⟨true, 1⟩, fun _ => ⟨true, 1⟩⟩ 1500 0
      [("y", { status := Status.online, ts := 0, details := none })]).1
      { id := "x", href := some "#", checkUrl := none } (Or.inr (by decide))⟩

/-- C4: on a fresh evaluation (valid URL, no fresh cache entry) the TCP
fallback runs exactly when the HTTP success count is 0; a successful TCP
connect makes the final status `unstable` (never `offline`), a failed one
leaves it `offline`; with at least one HTTP success no TCP probe runs. -/
theorem claim_C4_tcp_fallback (env : Env) (slowMs : ℚ) (now : Int)
    (cache : Cache) (t : Target) (url : String)
    (hurl : buildCheckUrl (resolvePrimary t) = some url)
    (hch : resolvePrimary t ≠ some "#")
    (hmiss : mapGet cache t.id = none) :
    ((stepTarget env slowMs now cache t).tcpCalls = 1 ↔
      (fetchHealthUrl (env.probe url) slowMs).success = 0) ∧
    ((fetchHealthUrl (env.probe url) slowMs).success = 0 →
      (env.tcp url).ok = true →
      (stepTarget env slowMs now cache t).status = Status.unstable) ∧
    ((fetchHealthUrl (env.probe url) slowMs).success = 0 →
      (env.tcp url).ok = false →
      (stepTarget env slowMs now cache t).status = Status.offline) ∧
    (0 < (fetchHealthUrl (env.probe url) slowMs).success →
      (stepTarget env slowMs now cache t).tcpCalls = 0) := by
  rw [stepTarget_miss env slowMs now cache t url hurl hch hmiss]
  by_cases h0 : (fetchHealthUrl (env.probe url) slowMs).success = 0
  · by_cases hok : (env.tcp url).ok = true
    · have hshape : probeTarget env slowMs now cache t url =
          { status := Status.unstable,
            detail := some { fetchHealthUrl (env.probe url) slowMs with
              status := HState.unstable, tcpOk := some true,
              tcpMs := some (env.tcp url).ms },
            cache := objSet cache t.id
              { status := Status.unstable, ts := now,
                details := some { fetchHealthUrl (env.probe url) slowMs with
                  status := HState.unstable, tcpOk := some true,
                  tcpMs := some (env.tcp url).ms } },
            httpCalls := 3, tcpCalls := 1 } := by
        unfold probeTarget
        dsimp only
        rw [if_pos h0, if_pos hok]
        simp
      rw [hshape]
      refine ⟨⟨fun _ => h0, fun _ => rfl⟩, fun _ _ => rfl,
        fun _ hfalse => absurd hok (by simp [hfalse]), fun hpos => by omega⟩
    · have hok' : (env.tcp url).ok = false := by
        simpa using hok
      have hdown := fetchHealthUrl_status_down h0
      have hshape : probeTarget env slowMs now cache t url =
          { status := Status.offline,
            detail := some { fetchHealthUrl (env.probe url) slowMs with
              tcpOk := some false, tcpMs := some (env.tcp url).ms },
            cache := objSet cache t.id
              { status := Status.offline, ts := now,
                details := some { fetchHealthUrl (env.probe url) slowMs with
                  tcpOk := some false, tcpMs := some (env.tcp url).ms } },
            httpCalls := 3, tcpCalls := 1 } := by
        unfold probeTarget
        dsimp only
        rw [if_pos h0, if_neg hok]
        dsimp only
        rw [hdown]
        simp
      rw [hshape]
      refine ⟨⟨fun _ => h0, fun _ => rfl⟩,
        fun _ htrue => absurd htrue (by simp [hok']), fun _ _ => rfl,
        fun hpos => by omega⟩
  · have hshape : probeTarget env slowMs now cache t url =
        { status :=
            if (fetchHealthUrl (env.probe url) slowMs).status = HState.up then
              Status.online
            else if (fetchHealthUrl (env.probe url) slowMs).status = HState.down then
              Status.offline
            else Status.unstable,
          detail := some (fetchHealthUrl (env.probe url) slowMs),
          cache := objSet cache t.id
            { status :=
                if (fetchHealthUrl (env.probe url) slowMs).status = HState.up then
                  Status.online
                else if (fetchHealthUrl (env.probe url) slowMs).status = HState.down then
                  Status.offline
                else Status.unstable,
              ts := now, details := some (fetchHealthUrl (env.probe url) slowMs) },
          httpCalls := 3, tcpCalls := 0 } := by
      unfold probeTarget
      dsimp only
      rw [if_neg h0]
    rw [hshape]
    exact ⟨⟨fun hone => absurd hone (by norm_num), fun he => absurd he h0⟩,
      fun he _ => absurd he h0, fun he _ => absurd he h0, fun _ => rfl⟩

/-- Witness for C4: all HTTP attempts fail but TCP connects, so the target
is classified `unstable` after exactly one TCP probe. -/
theorem claim_C4_tcp_fallback_witness :
    buildCheckUrl (resolvePrimary { id := "a", href := some "http://h/", checkUrl := none }) =
      some "http://h/" ∧
    (fetchHealthUrl ((⟨fun _ _ => ⟨false, 7⟩, fun _ => ⟨true, 4⟩⟩ : Env).probe "http://h/") 1500).success = 0 ∧
    (stepTarget ⟨fun _ _ => ⟨false, 7⟩, fun _ => ⟨true, 4⟩⟩ 1500 0 []
      { id := "a", href := some "http://h/", checkUrl := none }).status = Status.unstable ∧
    (stepTarget ⟨fun _ _ => ⟨false, 7⟩, fun _ => ⟨true, 4⟩⟩ 1500 0 []
      { id := "a", href := some "http://h/", checkUrl := none }).tcpCalls = 1 := by
  refine ⟨by decide, by decide, ?_, ?_⟩
  · exact (claim_C4_tcp_fallback ⟨fun _ _ => ⟨false, 7⟩, fun _ => ⟨true, 4⟩⟩ 1500 0 []
      { id := "a", href := some "http://h/", checkUrl := none } "http://h/"
      (by decide) (by decide) rfl).2.1 (by decide) (by decide)
  · exact ((claim_C4_tcp_fallback ⟨fun _ _ => ⟨false, 7⟩, fun _ => ⟨true, 4⟩⟩ 1500 0 []
      { id := "a", href := some "http://h/", checkUrl := none } "http://h/"
      (by decide) (by decide) rfl).1).mpr (by decide)

/-! ## StatusMap key lemmas for the orchestrator -/

theorem checkTargetsAux_preserves (env : Env) (slowMs : ℚ) (now : Int) :
    ∀ (targets : List Target) (cache : Cache) (s : List (String × StatusVal))
      (d : List (String × Verdict)) (h tc : Nat) (id : String),
      id ∉ targets.map Target.id → id ≠ "_details" →
      mapGet (checkTargetsAux env slowMs now targets cache s d h tc).statuses id =
        mapGet s id ∧
      ((checkTargetsAux env slowMs now targets cache s d h tc).statuses.filter
        fun p => p.1 = id).length = (s.filter fun p => p.1 = id).length
  | [], cache, s, d, h, tc, id, hnm, hnd => by
      unfold checkTargetsAux
      dsimp only
      by_cases hd : d = []
      · rw [if_pos hd]
        exact ⟨rfl, rfl⟩
      · rw [if_neg hd]
        constructor
        · rw [mapGet_objSet]
          rw [if_neg fun e => hnd e.symm]
        · exact filter_objSet_ne s (fun e => hnd e.symm) _
  | t :: rest, cache, s, d, h, tc, id, hnm, hnd => by
      have hne : t.id ≠ id := by
        intro e
        exact hnm (by simp [e])
      have hrest : id ∉ rest.map Target.id := by
        intro hc
        exact hnm (by simp [hc])
      unfold checkTargetsAux
      dsimp only
      obtain ⟨ih1, ih2⟩ := checkTargetsAux_preserves env slowMs now rest
        (stepTarget env slowMs now cache t).cache
        (objSet s t.id (StatusVal.state (stepTarget env slowMs now cache t).status))
        (match (stepTarget env slowMs now cache t).detail with
          | some v => objSet d t.id v
          | none => d)
        (h + (stepTarget env slowMs now cache t).httpCalls)
        (tc + (stepTarget env slowMs now cache t).tcpCalls) id hrest hnd
      refine ⟨?_, ?_⟩
      · rw [ih1, mapGet_objSet, if_neg hne]
      · rw [ih2, filter_objSet_ne s hne]

theorem checkTargetsAux_sets_id (env : Env) (slowMs : ℚ) (now : Int) :
    ∀ (targets : List Target) (cache : Cache) (s : List (String × StatusVal))
      (d : List (String × Verdict)) (h tc : Nat) (id : String),
      (targets.map Target.id).Nodup → "_details" ∉ targets.map Target.id →
      id ∈ targets.map Target.id →
      mapGet s id = none → (s.filter fun p => p.1 = id).length = 0 →
      (∃ st : Status,
        mapGet (checkTargetsAux env slowMs now targets cache s d h tc).statuses id =
          some (StatusVal.state st)) ∧
      ((checkTargetsAux env slowMs now targets cache s d h tc).statuses.filter
        fun p => p.1 = id).length = 1
  | [], _, _, _, _, _, id, _, _, hmem, _, _ => by simp at hmem
  | t :: rest, cache, s, d, h, tc, id, hnd, hres, hmem, hget, hcnt => by
      have hndr : (rest.map Target.id).Nodup := by
        simpa using hnd.of_cons
      have hresr : "_details" ∉ rest.map Target.id := by
        intro hc
        exact hres (by simp [hc])
      unfold checkTargetsAux
      dsimp only
      by_cases hid : id = t.id
      · subst hid
        have hnin : t.id ∉ rest.map Target.id := by
          have h' := hnd
          simp only [List.map_cons, List.nodup_cons] at h'
          exact h'.1
        have hset := objSet_of_absent hget
          (StatusVal.state (stepTarget env slowMs now cache t).status)
        obtain ⟨p1, p2⟩ := checkTargetsAux_preserves env slowMs now rest
          (stepTarget env slowMs now cache t).cache
          (objSet s t.id (StatusVal.state (stepTarget env slowMs now cache t).status))
          (match (stepTarget env slowMs now cache t).detail with
            | some v => objSet d t.id v
            | none => d)
          (h + (stepTarget env slowMs now cache t).httpCalls)
          (tc + (stepTarget env slowMs now cache t).tcpCalls) t.id hnin
          (by
            intro e
            exact hres (by simp [← e]))
        constructor
        · refine ⟨(stepTarget env slowMs now cache t).status, ?_⟩
          rw [p1, mapGet_objSet, if_pos rfl]
        · rw [p2, hset, filter_append_single_eq, hcnt]
      · have hmemr : id ∈ rest.map Target.id := by
          simp only [List.map_cons, List.mem_cons] at hmem
          rcases hmem with he | he
          · exact absurd he hid
          · exact he
        have hne : t.id ≠ id := fun e => hid e.symm
        exact checkTargetsAux_sets_id env slowMs now rest
          (stepTarget env slowMs now cache t).cache
          (objSet s t.id (StatusVal.state (stepTarget env slowMs now cache t).status))
          (match (stepTarget env slowMs now cache t).detail with
            | some v => objSet d t.id v
            | none => d)
          (h + (stepTarget env slowMs now cache t).httpCalls)
          (tc + (stepTarget env slowMs now cache t).tcpCalls) id hndr hresr hmemr
          (by rw [mapGet_objSet, if_neg hne]; exact hget)
          (by rw [filter_objSet_ne s hne]; exact hcnt)

/-- C2 (amended): for distinct input ids none of which is the reserved
`_details` key, every input id appears exactly once as a key of the
returned StatusMap, bound to one of the four states.  (A target whose id is
literally `_details` collides with the reserved diagnostics key — see the
counterexample.) -/
theorem claim_C2_statusmap_exactly_once (env : Env) (slowMs : ℚ) (now : Int)
    (targets : List Target) (cache : Cache)
    (hnd : (targets.map Target.id).Nodup)
    (hres : "_details" ∉ targets.map Target.id) :
    ∀ id ∈ targets.map Target.id,
      (∃ st : Status,
        mapGet (checkTargets env slowMs now targets cache).statuses id =
          some (StatusVal.state st)) ∧
      ((checkTargets env slowMs now targets cache).statuses.filter
        fun p => p.1 = id).length = 1 := by
  intro id hmem
  exact checkTargetsAux_sets_id env slowMs now targets cache [] [] 0 0 id
    hnd hres hmem rfl rfl

/-- C2 counterexample: with a (single, distinct-id) target whose id is the
reserved key `_details`, the returned map binds that id to the merged
detail map, not to one of the four states — the claim fails as stated. -/
theorem claim_C2_counterexample :
    mapGet (checkTargets ⟨fun _ _ => ⟨true, 10⟩, fun _ => ⟨true, 5⟩⟩ 1500 0
        [{ id := "_details", href := some "http://a/", checkUrl := none }] []).statuses
        "_details" ∉
      [some (StatusVal.state Status.online), some (StatusVal.state Status.offline),
       some (StatusVal.state Status.unstable), some (StatusVal.state Status.unknown)] := by
  decide

/-- Witness for C2 on a well-behaved id. -/
theorem claim_C2_statusmap_exactly_once_witness :
    (([{ id := "a", href := some "http://h/", checkUrl := none }] :
        List Target).map Target.id).Nodup ∧
    "_details" ∉ ([{ id := "a", href := some "http://h/", checkUrl := none }] :
        List Target).map Target.id ∧
    ((∃ st : Status,
        mapGet (checkTargets ⟨fun _ _ => ⟨true, 10⟩, fun _ => ⟨true, 5⟩⟩ 1500 0
          [{ id := "a", href := some "http://h/", checkUrl := none }] []).statuses "a" =
          some (StatusVal.state st)) ∧
      ((checkTargets ⟨fun _ _ => ⟨true, 10⟩, fun _ => ⟨true, 5⟩⟩ 1500 0
          [{ id := "a", href := some "http://h/", checkUrl := none }] []).statuses.filter
        fun p => p.1 = "a").length = 1) :=
  ⟨by decide, by decide,
    claim_C2_statusmap_exactly_once ⟨fun _ _ => ⟨true, 10⟩, fun _ => ⟨true, 5⟩⟩ 1500 0
      [{ id := "a", href := some "http://h/", checkUrl := none }] [] (by decide)
      (by decide) "a" (by decide)⟩

theorem mapGet_mem {α : Type} :
    ∀ {m : List (String × α)} {k : String} {e : α},
      mapGet m k = some e → (k, e) ∈ m
  | [], k, e, h => by simp [mapGet] at h
  | (k0, v0) :: t, k, e, h => by
      unfold mapGet at h
      by_cases h0 : k0 = k
      · rw [if_pos h0] at h
        obtain rfl := Option.some.inj h
        subst h0
        exact List.mem_cons_self _ _
      · rw [if_neg h0] at h
        exact List.mem_cons_of_mem _ (mapGet_mem h)

theorem mem_objSet {α : Type} :
    ∀ {m : List (String × α)} {k : String} {v : α} {p : String × α},
      p ∈ objSet m k v → p ∈ m ∨ p = (k, v)
  | [], k, v, p, h => by
      simp only [objSet, List.mem_singleton] at h
      exact Or.inr h
  | (k0, v0) :: t, k, v, p, h => by
      unfold objSet at h
      by_cases h0 : k0 = k
      · rw [if_pos h0] at h
        rcases List.mem_cons.mp h with rfl | h
        · subst h0
          exact Or.inr rfl
        · exact Or.inl (List.mem_cons_of_mem _ h)
      · rw [if_neg h0] at h
        rcases List.mem_cons.mp h with rfl | h
        · exact Or.inl (List.mem_cons_self _ _)
        · rcases mem_objSet h with h | h
          · exact Or.inl (List.mem_cons_of_mem _ h)
          · exact Or.inr h

theorem checkTargetsAux_replay (env env₂ : Env) (slowMs : ℚ) (now₁ now₂ : Int)
    (h12 : now₁ ≤ now₂) (hlt : now₂ - now₁ < HEALTH_CACHE_MS) :
    ∀ (targets : List Target) (cache : Cache) (s : List (String × StatusVal))
      (d : List (String × Verdict)) (h1 t1 h2 t2 : Nat),
      (∀ p ∈ cache, p.2.ts = now₁) →
      (∀ p ∈ (checkTargetsAux env slowMs now₁ targets cache s d h1 t1).cache,
        p.2.ts = now₁) ∧
      (∀ id e, mapGet cache id = some e →
        mapGet (checkTargetsAux env slowMs now₁ targets cache s d h1 t1).cache id =
          some e) ∧
      checkTargetsAux env₂ slowMs now₂ targets
          (checkTargetsAux env slowMs now₁ targets cache s d h1 t1).cache s d h2 t2 =
        { statuses := (checkTargetsAux env slowMs now₁ targets cache s d h1 t1).statuses,
          cache := (checkTargetsAux env slowMs now₁ targets cache s d h1 t1).cache,
          httpCalls := h2, tcpCalls := t2 }
  | [], cache, s, d, h1, t1, h2, t2, hts => by
      refine ⟨by simpa [checkTargetsAux] using hts, ?_, ?_⟩
      · intro id e h
        simpa [checkTargetsAux] using h
      · by_cases hd : d = []
        · simp [checkTargetsAux, hd]
        · simp [checkTargetsAux, hd]
  | t :: rest, cache, s, d, h1, t1, h2, t2, hts => by
      rcases hurl : buildCheckUrl (resolvePrimary t) with _ | url
      · -- unknown target: both cycles skip it identically
        have hstep₁ := stepTarget_unknown env slowMs now₁ cache t hurl
        obtain ⟨ih1, ih2, ih3⟩ := checkTargetsAux_replay env env₂ slowMs now₁ now₂
          h12 hlt rest cache
          (objSet s t.id (StatusVal.state Status.unknown)) d h1 t1 h2 t2 hts
        have e₁ : checkTargetsAux env slowMs now₁ (t :: rest) cache s d h1 t1 =
            checkTargetsAux env slowMs now₁ rest cache
              (objSet s t.id (StatusVal.state Status.unknown)) d h1 t1 := by
          conv_lhs => unfold checkTargetsAux
          rw [hstep₁]
          dsimp only
          rw [Nat.add_zero, Nat.add_zero]
        refine ⟨by rw [e₁]; exact ih1, by rw [e₁]; exact ih2, ?_⟩
        rw [e₁]
        have hstep₂ := stepTarget_unknown env₂ slowMs now₂
          (checkTargetsAux env slowMs now₁ rest cache
            (objSet s t.id (StatusVal.state Status.unknown)) d h1 t1).cache t hurl
        conv_lhs => unfold checkTargetsAux
        rw [hstep₂]
        dsimp only
        rw [Nat.add_zero, Nat.add_zero]
        exact ih3
      · by_cases hch : resolvePrimary t = some "#"
        · -- also unknown via the placeholder guard
          have hurl0 : buildCheckUrl (resolvePrimary t) = none := by
            rw [hch, hash_unparsable]
          rw [hurl0] at hurl
          exact Option.noConfusion hurl
        · rcases hmg : mapGet cache t.id with _ | e
          · -- cache miss: cycle 1 probes and stores a `now₁` entry,
            -- cycle 2 reuses it
            have hstep₁ := stepTarget_miss env slowMs now₁ cache t url hurl hch hmg
            obtain ⟨hcache, hhttp, -, r, hdet⟩ :=
              probeTarget_shape env slowMs now₁ cache t url
            set P := probeTarget env slowMs now₁ cache t url with hP
            have hts' : ∀ p ∈ P.cache, p.2.ts = now₁ := by
              intro p hp
              rw [hcache] at hp
              rcases mem_objSet hp with hp | hp
              · exact hts p hp
              · rw [hp]
            obtain ⟨ih1, ih2, ih3⟩ := checkTargetsAux_replay env env₂ slowMs now₁ now₂
              h12 hlt rest P.cache
              (objSet s t.id (StatusVal.state P.status))
              (objSet d t.id r) (h1 + P.httpCalls) (t1 + P.tcpCalls) h2 t2 hts'
            have e₁ : checkTargetsAux env slowMs now₁ (t :: rest) cache s d h1 t1 =
                checkTargetsAux env slowMs now₁ rest P.cache
                  (objSet s t.id (StatusVal.state P.status))
                  (objSet d t.id r) (h1 + P.httpCalls) (t1 + P.tcpCalls) := by
              conv_lhs => unfold checkTargetsAux
              rw [hstep₁]
              dsimp only
              rw [hdet]
            have hen : mapGet (checkTargetsAux env slowMs now₁ rest P.cache
                (objSet s t.id (StatusVal.state P.status))
                (objSet d t.id r) (h1 + P.httpCalls) (t1 + P.tcpCalls)).cache t.id =
                some { status := P.status, ts := now₁, details := P.detail } := by
              apply ih2
              rw [hcache, mapGet_objSet, if_pos rfl]
            refine ⟨by rw [e₁]; exact ih1, ?_, ?_⟩
            · intro id e' h'
              rw [e₁]
              apply ih2
              rw [hcache, mapGet_objSet]
              have hne : t.id ≠ id := by
                intro hid
                rw [← hid, hmg] at h'
                exact Option.noConfusion h'
              rw [if_neg hne]
              exact h'
            · rw [e₁]
              have hstep₂ := stepTarget_hit env₂ slowMs now₂
                (checkTargetsAux env slowMs now₁ rest P.cache
                  (objSet s t.id (StatusVal.state P.status))
                  (objSet d t.id r) (h1 + P.httpCalls) (t1 + P.tcpCalls)).cache t url
                { status := P.status, ts := now₁, details := P.detail }
                hurl hch hen (by dsimp only; exact hlt)
              conv_lhs => unfold checkTargetsAux
              rw [hstep₂]
              dsimp only
              rw [Nat.add_zero, Nat.add_zero, hdet]
              exact ih3
          · -- fresh cache hit in both cycles
            have hets : e.ts = now₁ := hts (t.id, e) (mapGet_mem hmg)
            have hstep₁ := stepTarget_hit env slowMs now₁ cache t url e hurl hch hmg
              (by rw [hets]; simp only [HEALTH_CACHE_MS]; omega)
            obtain ⟨ih1, ih2, ih3⟩ := checkTargetsAux_replay env env₂ slowMs now₁ now₂
              h12 hlt rest cache
              (objSet s t.id (StatusVal.state e.status))
              (match e.details with
                | some v => objSet d t.id v
                | none => d) h1 t1 h2 t2 hts
            have e₁ : checkTargetsAux env slowMs now₁ (t :: rest) cache s d h1 t1 =
                checkTargetsAux env slowMs now₁ rest cache
                  (objSet s t.id (StatusVal.state e.status))
                  (match e.details with
                    | some v => objSet d t.id v
                    | none => d) h1 t1 := by
              conv_lhs => unfold checkTargetsAux
              rw [hstep₁]
              dsimp only
              rw [Nat.add_zero, Nat.add_zero]
            refine ⟨by rw [e₁]; exact ih1, by rw [e₁]; exact ih2, ?_⟩
            rw [e₁]
            have hen : mapGet (checkTargetsAux env slowMs now₁ rest cache
                (objSet s t.id (StatusVal.state e.status))
                (match e.details with
                  | some v => objSet d t.id v
                  | none => d) h1 t1).cache t.id = some e := ih2 t.id e hmg
            have hstep₂ := stepTarget_hit env₂ slowMs now₂
              (checkTargetsAux env slowMs now₁ rest cache
                (objSet s t.id (StatusVal.state e.status))
                (match e.details with
                  | some v => objSet d t.id v
                  | none => d) h1 t1).cache t url e hurl hch hen
              (by rw [hets]; exact hlt)
            conv_lhs => unfold checkTargetsAux
            rw [hstep₂]
            dsimp only
            rw [Nat.add_zero, Nat.add_zero]
            exact ih3

/-- C8: a cache entry younger than the TTL is returned as-is with no
network attempt; an entry at or past the TTL is treated as absent and the
target is re-probed (3 HTTP attempts); and two whole check cycles within
the TTL window over the same input, starting from a cold cache, return
identical statuses with zero network attempts in the second cycle —
whatever the second cycle's network would have answered. -/
theorem claim_C8_cache_ttl :
    (∀ (env : Env) (slowMs : ℚ) (now : Int) (cache : Cache) (t : Target)
        (url : String) (e : CacheEntry),
      buildCheckUrl (resolvePrimary t) = some url → resolvePrimary t ≠ some "#" →
      mapGet cache t.id = some e → now - e.ts < HEALTH_CACHE_MS →
      stepTarget env slowMs now cache t =
        { status := e.status, detail := e.details, cache := cache,
          httpCalls := 0, tcpCalls := 0 }) ∧
    (∀ (env : Env) (slowMs : ℚ) (now : Int) (cache : Cache) (t : Target)
        (url : String) (e : CacheEntry),
      buildCheckUrl (resolvePrimary t) = some url → resolvePrimary t ≠ some "#" →
      mapGet cache t.id = some e → ¬(now - e.ts < HEALTH_CACHE_MS) →
      stepTarget env slowMs now cache t = probeTarget env slowMs now cache t url ∧
        (stepTarget env slowMs now cache t).httpCalls = 3) ∧
    (∀ (env env₂ : Env) (slowMs : ℚ) (targets : List Target) (now₁ now₂ : Int),
      now₁ ≤ now₂ → now₂ - now₁ < HEALTH_CACHE_MS →
      (checkTargets env₂ slowMs now₂ targets
          (checkTargets env slowMs now₁ targets []).cache).statuses =
        (checkTargets env slowMs now₁ targets []).statuses ∧
      (checkTargets env₂ slowMs now₂ targets
          (checkTargets env slowMs now₁ targets []).cache).cache =
        (checkTargets env slowMs now₁ targets []).cache ∧
      (checkTargets env₂ slowMs now₂ targets
          (checkTargets env slowMs now₁ targets []).cache).httpCalls = 0 ∧
      (checkTargets env₂ slowMs now₂ targets
          (checkTargets env slowMs now₁ targets []).cache).tcpCalls = 0) := by
  refine ⟨?_, ?_, ?_⟩
  · intro env slowMs now cache t url e hurl hch hmg hf
    exact stepTarget_hit env slowMs now cache t url e hurl hch hmg hf
  · intro env slowMs now cache t url e hurl hch hmg hf
    have hs := stepTarget_stale env slowMs now cache t url e hurl hch hmg hf
    refine ⟨hs, ?_⟩
    rw [hs]
    exact (probeTarget_shape env slowMs now cache t url).2.1
  · intro env env₂ slowMs targets now₁ now₂ h12 hlt
    obtain ⟨-, -, ih3⟩ := checkTargetsAux_replay env env₂ slowMs now₁ now₂ h12 hlt
      targets [] [] [] 0 0 0 0 (by intro p hp; simp at hp)
    unfold checkTargets
    rw [ih3]
    exact ⟨rfl, rfl, rfl, rfl⟩

/-- Witness for C8: one target probed at time 0, replayed at time 1000
against an oracle that would answer differently — same statuses, no calls. -/
theorem claim_C8_cache_ttl_witness :
    (0 : Int) ≤ 1000 ∧ (1000 : Int) - 0 < HEALTH_CACHE_MS ∧
    ((checkTargets ⟨fun _ _ => ⟨false, 2⟩, fun _ => ⟨false, 2⟩⟩ 1500 1000
        [{ id := "a", href := some "http://h/", checkUrl := none }]
        (checkTargets ⟨fun _ _ => ⟨true, 10⟩, fun _ => ⟨true, 5⟩⟩ 1500 0
          [{ id := "a", href := some "http://h/", checkUrl := none }] []).cache).statuses =
      (checkTargets ⟨fun _ _ => ⟨true, 10⟩, fun _ => ⟨true, 5⟩⟩ 1500 0
        [{ id := "a", href := some "http://h/", checkUrl := none }] []).statuses ∧
     (checkTargets ⟨fun _ _ => ⟨false, 2⟩, fun _ => ⟨false, 2⟩⟩ 1500 1000
        [{ id := "a", href := some "http://h/", checkUrl := none }]
        (checkTargets ⟨fun _ _ => ⟨true, 10⟩, fun _ => ⟨true, 5⟩⟩ 1500 0
          [{ id := "a", href := some "http://h/", checkUrl := none }] []).cache).cache =
      (checkTargets ⟨fun _ _ => ⟨true, 10⟩, fun _ => ⟨true, 5⟩⟩ 1500 0
        [{ id := "a", href := some "http://h/", checkUrl := none }] []).cache ∧
     (checkTargets ⟨fun _ _ => ⟨false, 2⟩, fun _ => ⟨false, 2⟩⟩ 1500 1000
        [{ id := "a", href := some "http://h/", checkUrl := none }]
        (checkTargets ⟨fun _ _ => ⟨true, 10⟩, fun _ => ⟨true, 5⟩⟩ 1500 0
          [{ id := "a", href := some "http://h/", checkUrl := none }] []).cache).httpCalls = 0 ∧
     (checkTargets ⟨fun _ _ => ⟨false, 2⟩, fun _ => ⟨false, 2⟩⟩ 1500 1000
        [{ id := "a", href := some "http://h/", checkUrl := none }]
        (checkTargets ⟨fun _ _ => ⟨true, 10⟩, fun _ => ⟨true, 5⟩⟩ 1500 0
          [{ id := "a", href := some "http://h/", checkUrl := none }] []).cache).tcpCalls = 0) :=
  ⟨by decide, by decide,
    claim_C8_cache_ttl.2.2 ⟨fun _ _ => ⟨true, 10⟩, fun _ => ⟨true, 5⟩⟩
      ⟨fun _ _ => ⟨false, 2⟩, fun _ => ⟨false, 2⟩⟩ 1500
      [{ id := "a", href := some "http://h/", checkUrl := none }] 0 1000
      (by decide) (by decide)⟩

/-- C5 counterexample: `buildCheckUrl` on the parseable URL
`mailto:user@example.com` yields `"nulluser@example.com"` (origin `"null"`
plus the opaque path), and normalizing that output yields `null` — so
`normalize (normalize x) ≠ normalize x` although `normalize x` is not
`null`. -/
theorem claim_C5_counterexample :
    buildCheckUrl (some "mailto:user@example.com") = some "nulluser@example.com" ∧
    buildCheckUrl (some "nulluser@example.com") = none ∧
    buildCheckUrl (some "nulluser@example.com") ≠
      buildCheckUrl (some "mailto:user@example.com") := by
  refine ⟨by decide, by decide, by decide⟩

/-- Witness for C5 at a concrete http URL. -/
theorem claim_C5_normalizer_idempotent_witness :
    parseURL "http://example.com/app?a=1" =
      some { scheme := "http", host := "example.com", port := none,
             pathname := "/app", query := some "a=1" } ∧
    origin { scheme := "http", host := "example.com", port := none,
             pathname := "/app", query := some "a=1" } ≠ "null" ∧
    buildCheckUrl (some "http://example.com/app?a=1") = some "http://example.com/app" ∧
    buildCheckUrl (some "http://example.com/app") = some "http://example.com/app" :=
  ⟨by decide, by decide, by decide,
    claim_C5_normalizer_idempotent "http://example.com/app?a=1"
      { scheme := "http", host := "example.com", port := none,
        pathname := "/app", query := some "a=1" }
      (by decide) (by decide) "http://example.com/app" (by decide)⟩
